import Mathlib

/-!
# Receipt processor: the points rule engine

A shallow embedding of `computeReceiptPoints` (src/main.go, lines 108-174) and of the
Go standard-library functions it calls.

Conventions of the embedding.

* A Go `string` is a Lean `String`; the functions below work on its list of characters.
  Only valid UTF-8 strings are covered, which is what `encoding/json` hands to the
  handlers. `len` of a string is its number of UTF-8 bytes.
* A Go `int` is a Lean `Int` kept in the 64-bit range by `wrapInt` after every addition
  (64-bit targets: `int` is `int64`, and signed overflow wraps).
* A Go `float64` is a value of `F64`: a finite value is stored as the integer number of
  units of `2^-1074` it consists of (every finite binary64 number is such a multiple),
  next to the two infinities and NaN. The sign of zero is not represented: none of the
  operations used by the rule engine can observe it.
* The result of converting a float that does not fit `int` is implementation-dependent
  in Go; it is the parameter `conv` of `computeReceiptPoints`.
-/

namespace ReceiptProcessor

/-! ## Data model (src/main.go, lines 18-31) -/

/-- Item: each item in a receipt. -/
structure Item where
  shortDescription : String
  price : String
deriving DecidableEq, Repr

/-- Receipt: the structure of a receipt. -/
structure Receipt where
  retailer : String
  purchaseDate : String
  purchaseTime : String
  total : String
  items : List Item
deriving DecidableEq, Repr

/-! ## Go `int` on a 64-bit target -/

/-- Smallest value of a 64-bit `int`. -/
def intMin : Int := -9223372036854775808

/-- Largest value of a 64-bit `int`. -/
def intMax : Int := 9223372036854775807

/-- Two's complement wrap-around of an integer into the 64-bit range. -/
def wrapInt (z : Int) : Int :=
  (z + 9223372036854775808) % 18446744073709551616 - 9223372036854775808

/-- Go `a + b` on `int`. -/
def addInt (a b : Int) : Int := wrapInt (a + b)

/-! ## IEEE-754 binary64 -/

/-- A `float64` value. `fin n` is the finite number `n * 2^-1074`. -/
inductive F64 where
  | fin (n : Int)
  | inf (neg : Bool)
  | nan
deriving DecidableEq, Repr

/-- The number 1.0 counted in units of `2^-1074`. -/
def unit : Nat := 2 ^ 1074

/-- The first magnitude (in units) that is too large for a finite binary64: `2^1024`. -/
def overflowUnits : Nat := 2 ^ 2098

/-- Number of binary digits of `n`, by dropping 64 low digits at a time while there are
more than 64, then one at a time; `fuel` bounds the number of steps. -/
def bitLenAux : Nat → Nat → Nat
  | 0, _ => 0
  | fuel + 1, n =>
    if n = 0 then 0
    else if 18446744073709551616 ≤ n then bitLenAux fuel (n / 18446744073709551616) + 64
    else bitLenAux fuel (n / 2) + 1

/-- Number of binary digits of `n` (0 for 0). -/
def bitLen (n : Nat) : Nat := bitLenAux n n

/-- Nearest integer to `x / y`, ties to the even integer. -/
def roundHalfEven (x y : Nat) : Nat :=
  let q := x / y
  let r := x % y
  if 2 * r < y then q
  else if y < 2 * r then q + 1
  else if q % 2 = 0 then q else q + 1

/-- Round the non-negative rational `a / b` (counted in units of `2^-1074`) to the nearest
magnitude with a 53-bit significand, ties to even, with an unbounded exponent range above.
Magnitudes below `2^52` units are subnormal: their spacing is one unit. -/
def roundUnits (a b : Nat) : Nat :=
  let s := bitLen (a / b) - 53
  roundHalfEven a (b * 2 ^ s) * 2 ^ s

/-- The float nearest to `(-1)^neg * a / b` units; overflow gives an infinity. -/
def F64.ofUnits (neg : Bool) (a b : Nat) : F64 :=
  let m := roundUnits a b
  if overflowUnits ≤ m then F64.inf neg
  else F64.fin (if neg then -(m : Int) else (m : Int))

/-- The float nearest to the rational `(-1)^neg * a / b`. -/
def F64.ofRatio (neg : Bool) (a b : Nat) : F64 := F64.ofUnits neg (a * unit) b

/-- The float `0`. -/
def F64.zero : F64 := F64.fin 0

/-- The constant `0.25`, exactly representable. -/
def F64.quarter : F64 := F64.fin (2 ^ 1072 : Nat)

/-- The constant `10.00`, exactly representable. -/
def F64.ten : F64 := F64.fin (10 * unit : Nat)

/-- The constant `0.2` as the compiler converts it: the binary64 nearest to 1/5,
which is `3602879701896397 / 2^54`. -/
def F64.pointTwo : F64 := F64.fin (3602879701896397 * 2 ^ 1020 : Nat)

/-- Go `x == y` on floats. -/
def F64.eq : F64 → F64 → Bool
  | F64.fin a, F64.fin b => decide (a = b)
  | F64.inf s, F64.inf t => decide (s = t)
  | _, _ => false

/-- Go `x > y` on floats. -/
def F64.gt : F64 → F64 → Bool
  | F64.fin a, F64.fin b => decide (b < a)
  | F64.fin _, F64.inf t => t
  | F64.inf s, F64.fin _ => !s
  | F64.inf s, F64.inf t => !s && t
  | _, _ => false

/-- Function `math.Trunc`: the integer part, rounding toward zero. -/
def F64.trunc : F64 → F64
  | F64.fin n => F64.fin (Int.tdiv n unit * unit)
  | x => x

/-- Function `math.Ceil`: the least integer not below the argument. -/
def F64.ceil : F64 → F64
  | F64.fin n => F64.fin (-((-n) / (unit : Int)) * unit)
  | x => x

/-- Function `math.Mod`: the exact remainder of `x / y` with the sign of `x`;
NaN when `x` is infinite or NaN, or `y` is zero or NaN; `x` when `y` is infinite. -/
def F64.mod : F64 → F64 → F64
  | F64.nan, _ => F64.nan
  | _, F64.nan => F64.nan
  | F64.inf _, _ => F64.nan
  | F64.fin a, F64.inf _ => F64.fin a
  | F64.fin a, F64.fin b => if b = 0 then F64.nan else F64.fin (Int.tmod a b)

/-- Go `x * y` on floats: the exact product rounded to nearest, ties to even. -/
def F64.mul : F64 → F64 → F64
  | F64.nan, _ => F64.nan
  | _, F64.nan => F64.nan
  | F64.inf s, F64.inf t => F64.inf (xor s t)
  | F64.inf s, F64.fin b => if b = 0 then F64.nan else F64.inf (xor s (decide (b < 0)))
  | F64.fin a, F64.inf t => if a = 0 then F64.nan else F64.inf (xor (decide (a < 0)) t)
  | F64.fin a, F64.fin b =>
    F64.ofUnits (xor (decide (a < 0)) (decide (b < 0))) (a.natAbs * b.natAbs) unit

/-- Go `int(x)` for a float `x`: the integer part when it fits a 64-bit `int`;
otherwise the implementation-dependent value `conv x`, which is some `int`. -/
def F64.toInt (conv : F64 → Int) : F64 → Int
  | F64.fin n =>
    let t := Int.tdiv n unit
    if intMin ≤ t ∧ t ≤ intMax then t else wrapInt (conv (F64.fin n))
  | x => wrapInt (conv x)

/-! ## Package `strconv`: `ParseFloat` -/

/-- Helper `lower` of package strconv: the byte `c | 0x20`. -/
def lower (c : Char) : Nat := c.toNat ||| 32

/-- Is `c` one of the bytes 0 to 9. -/
def isDigit (c : Char) : Bool := decide (48 ≤ c.toNat ∧ c.toNat ≤ 57)

/-- Value of the decimal digit `c`. -/
def digitVal (c : Char) : Nat := c.toNat - 48

/-- Is `c` one of the letters a to f, in either case. -/
def isHexLetter (c : Char) : Bool := decide (97 ≤ lower c ∧ lower c ≤ 102)

/-- Function `commonPrefixLenIgnoreCase`: the number of leading bytes of `s` that match
the lower-case word `word`, upper-case ASCII letters of `s` being lowered first. -/
def commonLenIgnoreCase : List Char → List Char → Nat
  | c :: cs, w :: ws =>
    let c1 := if 65 ≤ c.toNat ∧ c.toNat ≤ 90 then c.toNat + 32 else c.toNat
    if c1 = w.toNat then commonLenIgnoreCase cs ws + 1 else 0
  | _, _ => 0

/-- The length of the match of `infinity` that `special` accepts at the head of `s`:
3 for `inf`, 8 for `infinity`, nothing else. -/
def infLen (s : List Char) : Option Nat :=
  let n := commonLenIgnoreCase s "infinity".data
  let n := if 3 < n ∧ n < 8 then 3 else n
  if n = 3 ∨ n = 8 then some n else none

/-- Function `special`: an optionally signed `inf` or `infinity`, or an unsigned `nan`,
at the head of `s`, case ignored; the result is the value and the number of bytes read. -/
def special (s : List Char) : Option (F64 × Nat) :=
  match s with
  | [] => none
  | c :: cs =>
    if c = '+' then (infLen cs).map (fun n => (F64.inf false, n + 1))
    else if c = '-' then (infLen cs).map (fun n => (F64.inf true, n + 1))
    else if c = 'i' ∨ c = 'I' then (infLen s).map (fun n => (F64.inf false, n))
    else if c = 'n' ∨ c = 'N' then
      if commonLenIgnoreCase s "nan".data = 3 then some (F64.nan, 3) else none
    else none

/-- The variables of the digit loop of `readFloat`. The mantissa keeps every digit:
the 19-digit cut of the source only selects between algorithms that all return the
correctly rounded value of the whole literal. -/
structure ReadState where
  mantissa : Nat
  nd : Nat
  dp : Int
  sawdot : Bool
  sawdigits : Bool
  underscores : Bool
deriving DecidableEq, Repr

/-- The digit loop of `readFloat`; `base` is 10 or 16. Returns the state and the unread
rest of the input. -/
def readDigits (base : Nat) : List Char → ReadState → ReadState × List Char
  | [], st => (st, [])
  | c :: cs, st =>
    if c = '_' then readDigits base cs { st with underscores := true }
    else if c = '.' then
      if st.sawdot then (st, c :: cs)
      else readDigits base cs { st with sawdot := true, dp := st.nd }
    else if isDigit c then
      if c = '0' ∧ st.nd = 0 then
        readDigits base cs { st with sawdigits := true, dp := st.dp - 1 }
      else
        readDigits base cs { st with sawdigits := true, nd := st.nd + 1,
                                     mantissa := st.mantissa * base + digitVal c }
    else if base = 16 ∧ isHexLetter c then
      readDigits base cs { st with sawdigits := true, nd := st.nd + 1,
                                   mantissa := st.mantissa * 16 + (lower c - 97 + 10) }
    else (st, c :: cs)

/-- The digits of the exponent of `readFloat`: digits and underscores are consumed, and a
digit is accumulated only while the exponent read so far is below 10000. Returns the
exponent, whether an underscore was seen, and the unread rest. -/
def readExpDigits : List Char → Nat → Bool → Nat × Bool × List Char
  | [], e, u => (e, u, [])
  | c :: cs, e, u =>
    if c = '_' then readExpDigits cs e true
    else if isDigit c then readExpDigits cs (if e < 10000 then e * 10 + digitVal c else e) u
    else (e, u, c :: cs)

/-- A literal read by `readFloat`: the number `(-1)^neg * mantissa * b^exp` with `b = 2`
for a hexadecimal literal and `b = 10` otherwise, and the unread rest of the input. -/
structure FloatLit where
  neg : Bool
  hex : Bool
  mantissa : Nat
  exp : Int
  underscores : Bool
  rest : List Char
deriving DecidableEq, Repr

/-- The part of `readFloat` after the sign. -/
def readUnsigned (neg : Bool) (s : List Char) : Option FloatLit :=
  let hex : Bool :=
    match s with
    | c0 :: c1 :: _ :: _ => decide (c0 = '0' ∧ lower c1 = 120)
    | _ => false
  let body := if hex then s.drop 2 else s
  let (st, rest) := readDigits (if hex then 16 else 10) body ⟨0, 0, 0, false, false, false⟩
  if !st.sawdigits then none
  else
    let dp : Int := if st.sawdot then st.dp else st.nd
    let dp : Int := if hex then dp * 4 else dp
    let ndMant : Int := if hex then (st.nd : Int) * 4 else st.nd
    let expChar : Nat := if hex then 112 else 101
    match rest with
    | c :: cs =>
      if lower c = expChar then
        match cs with
        | [] => none
        | d :: ds =>
          let esign : Int := if d = '-' then -1 else 1
          let digits := if d = '+' ∨ d = '-' then ds else d :: ds
          match digits with
          | [] => none
          | d0 :: _ =>
            if !isDigit d0 then none
            else
              let (e, u, rest1) := readExpDigits digits 0 st.underscores
              some ⟨neg, hex, st.mantissa, dp + (e : Int) * esign - ndMant, u, rest1⟩
      else if hex then none
      else some ⟨neg, hex, st.mantissa, dp - ndMant, st.underscores, rest⟩
    | [] =>
      if hex then none
      else some ⟨neg, hex, st.mantissa, dp - ndMant, st.underscores, rest⟩

/-- The scan of `underscoreOK` after the sign and base marker; `saw` is the class of the
last byte seen: 0 for the start, 1 for a digit, 2 for an underscore, 3 for anything else. -/
def underscoreScan (hex : Bool) : List Char → Nat → Bool
  | [], saw => saw != 2
  | c :: cs, saw =>
    if isDigit c || (hex && isHexLetter c) then underscoreScan hex cs 1
    else if c = '_' then
      if saw != 1 then false else underscoreScan hex cs 2
    else if saw = 2 then false
    else underscoreScan hex cs 3

/-- Function `underscoreOK`: underscores may only stand between digits, or between a base
marker and a digit. -/
def underscoreOK (s : List Char) : Bool :=
  let s :=
    match s with
    | c :: cs => if c = '-' ∨ c = '+' then cs else s
    | [] => s
  match s with
  | c0 :: c1 :: cs =>
    if c0 = '0' ∧ (lower c1 = 98 ∨ lower c1 = 111 ∨ lower c1 = 120) then
      underscoreScan (lower c1 = 120) cs 1
    else underscoreScan false s 0
  | _ => underscoreScan false s 0

/-- Function `readFloat`: `none` stands for `ok = false`. -/
def readFloat (s : List Char) : Option FloatLit :=
  match s with
  | [] => none
  | c :: cs =>
    let r :=
      if c = '+' then readUnsigned false cs
      else if c = '-' then readUnsigned true cs
      else readUnsigned false s
    match r with
    | none => none
    | some lit =>
      if lit.underscores && !underscoreOK (s.take (s.length - lit.rest.length)) then none
      else some lit

/-- The binary64 value of a literal: the exact number it denotes, rounded to nearest,
ties to even; infinite when the rounded magnitude exceeds the largest finite float. -/
def FloatLit.value (lit : FloatLit) : F64 :=
  let b : Nat := if lit.hex then 2 else 10
  if 0 ≤ lit.exp then F64.ofRatio lit.neg (lit.mantissa * b ^ lit.exp.toNat) 1
  else F64.ofRatio lit.neg lit.mantissa (b ^ (-lit.exp).toNat)

/-- Function `strconv.ParseFloat(s, 64)`: the value and whether `err != nil`.
A string that is not a float literal in full gives `(0, true)`; a literal too large for
binary64 gives the infinity of its sign together with an error. -/
def parseFloat (s : List Char) : F64 × Bool :=
  match special s with
  | some (v, n) => if n = s.length then (v, false) else (F64.zero, true)
  | none =>
    match readFloat s with
    | none => (F64.zero, true)
    | some lit =>
      if lit.rest ≠ [] then (F64.zero, true)
      else
        match lit.value with
        | F64.inf neg => (F64.inf neg, true)
        | v => (v, false)

/-! ## Package `strconv`: `Atoi` -/

/-- The number written by a list of decimal digits, most significant first;
`acc` is the value of the digits already read. -/
def digitsVal : List Char → Nat → Nat
  | [], acc => acc
  | c :: cs, acc => digitsVal cs (acc * 10 + digitVal c)

/-- Function `strconv.Atoi`: an optional sign followed by one or more decimal digits,
denoting a number in the 64-bit range; `none` stands for `err != nil`. -/
def atoi (s : List Char) : Option Int :=
  let neg : Bool :=
    match s with
    | c :: _ => decide (c = '-')
    | [] => false
  let body :=
    match s with
    | c :: cs => if c = '+' ∨ c = '-' then cs else s
    | [] => s
  if body = [] then none
  else if !body.all isDigit then none
  else
    let n := digitsVal body 0
    if neg then (if n ≤ 9223372036854775808 then some (-(n : Int)) else none)
    else (if n < 9223372036854775808 then some (n : Int) else none)

/-! ## Package `strings` -/

/-- Function `strings.Split(s, "-")`: the fields between the hyphens of `s`. -/
def splitHyphen : List Char → List (List Char)
  | [] => [[]]
  | c :: cs =>
    if c = '-' then [] :: splitHyphen cs
    else
      match splitHyphen cs with
      | f :: fs => (c :: f) :: fs
      | [] => [[c]]

/-- Function `unicode.IsSpace`: the characters with the Unicode White_Space property. -/
def isSpace (c : Char) : Bool :=
  let n := c.toNat
  decide ((9 ≤ n ∧ n ≤ 13) ∨ n = 32 ∨ n = 133 ∨ n = 160 ∨ n = 5760 ∨ (8192 ≤ n ∧ n ≤ 8202)
    ∨ n = 8232 ∨ n = 8233 ∨ n = 8239 ∨ n = 8287 ∨ n = 12288)

/-- Function `strings.TrimSpace`: drop the leading and the trailing white space. -/
def trimSpace (s : List Char) : List Char :=
  ((s.dropWhile isSpace).reverse.dropWhile isSpace).reverse

/-- Go `len(s)`: the number of bytes of the UTF-8 encoding. -/
def byteLen : List Char → Nat
  | [] => 0
  | c :: cs => c.utf8Size + byteLen cs

/-! ## Package `regexp` -/

/-- A character of the class `[a-zA-Z0-9]`. -/
def isAlnum (c : Char) : Bool :=
  let n := c.toNat
  decide ((97 ≤ n ∧ n ≤ 122) ∨ (65 ≤ n ∧ n ≤ 90) ∨ (48 ≤ n ∧ n ≤ 57))

/-- The value of `len(alphaNumericRegex.FindAllString(s, -1))`: every match of the class
is one character, so the matches are the characters of the class. -/
def countAlnum (s : List Char) : Nat := (s.filter isAlnum).length

/-! ## Package `time` -/

/-- Function `getnum` of package time: a number of two digits, or of one digit when
`fixed` is false and no second digit follows. -/
def getnum (s : List Char) (fixed : Bool) : Option (Nat × List Char) :=
  match s with
  | [] => none
  | c0 :: rest0 =>
    if !isDigit c0 then none
    else
      match rest0 with
      | c1 :: rest1 =>
        if isDigit c1 then some (digitVal c0 * 10 + digitVal c1, rest1)
        else if fixed then none
        else some (digitVal c0, rest0)
      | [] => if fixed then none else some (digitVal c0, rest0)

/-- The value of `time.Parse("15:04", s)`, as the number of minutes after midnight of the
day the layout leaves at its default; `none` stands for `err != nil`. The layout is an
hour of one or two digits below 24, a colon, a minute of two digits below 60, and
nothing after it. -/
def parseClock (s : List Char) : Option Nat :=
  match getnum s false with
  | none => none
  | some (hour, v) =>
    if 24 ≤ hour then none
    else
      match v with
      | c :: v1 =>
        if c ≠ ':' then none
        else
          match getnum v1 true with
          | none => none
          | some (min, v2) =>
            if 60 ≤ min then none
            else if v2 ≠ [] then none
            else some (hour * 60 + min)
      | [] => none

/-! ## The rule engine (src/main.go, lines 108-174) -/

/-- One turn of the loop of rule 5 (lines 136-147): the new value of `points`. -/
def itemStep (conv : F64 → Int) (points : Int) (item : Item) : Int :=
  let trimmedDescription := trimSpace item.shortDescription.data
  if 0 < byteLen trimmedDescription ∧ byteLen trimmedDescription % 3 = 0 then
    let (itemPrice, err) := parseFloat item.price.data
    if err then points
    else
      let calculatedPoints := F64.toInt conv (F64.ceil (F64.mul itemPrice F64.pointTwo))
      addInt points calculatedPoints
  else points

/-- Function `computeReceiptPoints`: calculates points for a given receipt. -/
def computeReceiptPoints (conv : F64 → Int) (receipt : Receipt) : Int :=
  let points : Int := 0
  -- 1. alphanumeric character.
  let points := addInt points (countAlnum receipt.retailer.data)
  let totalAmount := (parseFloat receipt.total.data).1
  -- 2. total is a round dollar amount with no cents.
  let points := if F64.eq totalAmount (F64.trunc totalAmount) then addInt points 50 else points
  -- 3. total is a multiple of 0.25.
  let points :=
    if F64.eq (F64.mod totalAmount F64.quarter) F64.zero then addInt points 25 else points
  -- 4. 5 points for every two items on the receipt.
  let itemCountPoints : Int := ((receipt.items.length / 2 : Nat) : Int) * 5
  let points := addInt points itemCountPoints
  -- 5. Multiply the price by 0.2 and round up.
  let points := receipt.items.foldl (itemStep conv) points
  -- 6. 5 points if total > 10.00.
  let points := if F64.gt totalAmount F64.ten then addInt points 5 else points
  -- 7. if the day in the purchase date is odd.
  let dateParts := splitHyphen receipt.purchaseDate.data
  let points :=
    if dateParts.length = 3 then
      match atoi (dateParts.getD 2 []) with
      | some day => if Int.tmod day 2 = 1 then addInt points 6 else points
      | none => points
    else points
  -- 8. if the time of purchase is after 2:00pm and before 4:00pm.
  let points :=
    match parseClock receipt.purchaseTime.data with
    | some parsedTime =>
      let twoPM := 14 * 60
      let fourPM := 16 * 60
      if twoPM < parsedTime ∧ parsedTime < fourPM then addInt points 10 else points
    | none => points
  points

/-! ## The eight rules, one by one

Each function below is the contribution of one rule as a function of the one field the
rule reads, cut out of `computeReceiptPoints`. -/

/-- Rule 1 (lines 112-114). -/
def rule1 (retailer : String) : Int := countAlnum retailer.data

/-- Rule 2 (lines 121-124). -/
def rule2 (total : String) : Int :=
  let totalAmount := (parseFloat total.data).1
  if F64.eq totalAmount (F64.trunc totalAmount) then 50 else 0

/-- Rule 3 (lines 126-129). -/
def rule3 (total : String) : Int :=
  let totalAmount := (parseFloat total.data).1
  if F64.eq (F64.mod totalAmount F64.quarter) F64.zero then 25 else 0

/-- Rule 4 (lines 131-133). -/
def rule4 (itemCount : Nat) : Int := ((itemCount / 2 : Nat) : Int) * 5

/-- Rule 5 for one item (the body of the loop, lines 137-146). -/
def rule5Item (conv : F64 → Int) (item : Item) : Int := itemStep conv 0 item

/-- Rule 5 (lines 135-147): the loop run from zero points. -/
def rule5 (conv : F64 → Int) (items : List Item) : Int := items.foldl (itemStep conv) 0

/-- Rule 6 (lines 149-152). -/
def rule6 (total : String) : Int :=
  if F64.gt (parseFloat total.data).1 F64.ten then 5 else 0

/-- Rule 7 (lines 154-161). -/
def rule7 (purchaseDate : String) : Int :=
  let dateParts := splitHyphen purchaseDate.data
  if dateParts.length = 3 then
    match atoi (dateParts.getD 2 []) with
    | some day => if Int.tmod day 2 = 1 then 6 else 0
    | none => 0
  else 0

/-- Rule 8 (lines 163-171). -/
def rule8 (purchaseTime : String) : Int :=
  match parseClock purchaseTime.data with
  | some parsedTime => if 14 * 60 < parsedTime ∧ parsedTime < 16 * 60 then 10 else 0
  | none => 0

/-- The eight contributions of a receipt, in the order of the source. Rule 5 is the sum
of the points of the single items. -/
def contributions (conv : F64 → Int) (r : Receipt) : List Int :=
  [rule1 r.retailer, rule2 r.total, rule3 r.total, rule4 r.items.length,
   (r.items.map (rule5Item conv)).sum, rule6 r.total, rule7 r.purchaseDate,
   rule8 r.purchaseTime]

/-- The statement `if c { points += k }`. -/
def condAdd (c : Prop) [Decidable c] (k : Int) (points : Int) : Int :=
  if c then addInt points k else points

/-! ## The store and the handlers (src/main.go, lines 33-106)

The handlers are functions of the store, of the parts of the request they read and, for
the submission, of the identifier that `uuid.New().String()` returns; they give the store
after the call and the response. The lock of the store is not represented: each handler
reads or writes the map in one step. The decoding of the request body is the argument
`body`, `none` standing for a failed `Decode`. -/

/-- InMemoryStore: this holds receipts, as the map from identifier to receipt. -/
structure InMemoryStore where
  receipts : String → Option Receipt

/-- The value of `receiptStore` at process start: an empty map. -/
def emptyStore : InMemoryStore := ⟨fun _ => none⟩

/-- What a handler writes as the body of its response. -/
inductive Payload where
  | id (uniqueReceiptID : String)
  | points (totalPoints : Int)
  | text (message : String)
deriving DecidableEq, Repr

/-- The status code and the body of a response. -/
structure Response where
  status : Nat
  payload : Payload
deriving DecidableEq, Repr

/-- Function `strings.Split(s, sep)` for a separator of one character. -/
def splitSep (sep : Char) : List Char → List (List Char)
  | [] => [[]]
  | c :: cs =>
    if c = sep then [] :: splitSep sep cs
    else
      match splitSep sep cs with
      | f :: fs => (c :: f) :: fs
      | [] => [[c]]

/-- Function `processReceiptHandler`: handles POST /receipts/process endpoint. -/
def processReceiptHandler (store : InMemoryStore) (method : String) (body : Option Receipt)
    (uniqueReceiptID : String) : InMemoryStore × Response :=
  if method ≠ "POST" then (store, ⟨405, Payload.text "Only POST allowed"⟩)
  else
    match body with
    | none => (store, ⟨400, Payload.text "Invalid JSON input"⟩)
    | some receiptData =>
      (⟨fun k => if k = uniqueReceiptID then some receiptData else store.receipts k⟩,
       ⟨200, Payload.id uniqueReceiptID⟩)

/-- Function `getPointsHandler`: GET /receipts/{id}/points endpoint. -/
def getPointsHandler (conv : F64 → Int) (store : InMemoryStore) (method : String)
    (path : String) : InMemoryStore × Response :=
  if method ≠ "GET" then (store, ⟨405, Payload.text "Only GET allowed"⟩)
  else
    let pathParts := splitSep '/' path.data
    if pathParts.length ≠ 4 ∨ pathParts.getD 1 [] ≠ "receipts".data
        ∨ pathParts.getD 3 [] ≠ "points".data then
      (store, ⟨400, Payload.text "Invalid URL path"⟩)
    else
      let receiptID : String := ⟨pathParts.getD 2 []⟩
      match store.receipts receiptID with
      | none => (store, ⟨404, Payload.text "Receipt not found"⟩)
      | some receipt =>
        let totalPoints := computeReceiptPoints conv receipt
        (store, ⟨200, Payload.points totalPoints⟩)

/-- The path of the lookup of an identifier: `/receipts/{id}/points`. -/
def pointsPath (id : String) : String := ⟨"/receipts/".data ++ id.data ++ "/points".data⟩

/-- A lower-case hexadecimal digit. -/
def isLowerHex (c : Char) : Bool := isDigit c || decide (97 ≤ c.toNat ∧ c.toNat ≤ 102)

/-- The characters of a UUID string from position `i` on: hyphens at the positions 8, 13,
18 and 23, lower-case hexadecimal digits elsewhere, 36 characters in all. -/
def uuidChars : List Char → Nat → Bool
  | [], i => decide (i = 36)
  | c :: cs, i =>
    (if i = 8 ∨ i = 13 ∨ i = 18 ∨ i = 23 then decide (c = '-') else isLowerHex c)
      && uuidChars cs (i + 1)

/-- The form of the strings that `uuid.New().String()` returns:
`xxxxxxxx-xxxx-xxxx-xxxx-xxxxxxxxxxxx`. -/
def isUUIDString (s : String) : Bool := uuidChars s.data 0

/-- A receipt of the end-to-end scenario of the specification (section 8): retailer
`Target`, total `35.35`, date `2022-01-01`, time `13:01` and five items, of which the
second and the fifth have a trimmed description whose length is a multiple of 3. -/
def targetReceipt : Receipt :=
  { retailer := "Target", purchaseDate := "2022-01-01", purchaseTime := "13:01",
    total := "35.35",
    items := [⟨"Mountain Dew 12PK", "6.49"⟩, ⟨"Emils Cheese Pizza", "12.25"⟩,
              ⟨"Knorr Creamy Chicken", "1.26"⟩, ⟨"Doritos Nacho Cheese", "3.35"⟩,
              ⟨"   Klarbrunn 12-PK 12 FL OZ  ", "12.00"⟩] }

/-! ## Notions of the specification -/

/-- The integer that a string denotes in decimal notation, of any size: an optional sign
followed by one or more decimal digits; `none` for a string of another form. -/
def decimalInteger (s : List Char) : Option Int :=
  let neg : Bool :=
    match s with
    | c :: _ => decide (c = '-')
    | [] => false
  let body :=
    match s with
    | c :: cs => if c = '+' ∨ c = '-' then cs else s
    | [] => s
  if body = [] then none
  else if !body.all isDigit then none
  else if neg then some (-(digitsVal body 0 : Int)) else some (digitsVal body 0 : Int)

/-- A valid 24-hour time written `HH:MM`: two digits, a colon, two digits, the hour below
24 and the minute below 60. -/
def IsClock (s : List Char) (h m : Nat) : Prop :=
  ∃ a b c d : Char, s = [a, b, ':', c, d] ∧ isDigit a = true ∧ isDigit b = true ∧
    isDigit c = true ∧ isDigit d = true ∧ h = digitVal a * 10 + digitVal b ∧
    m = digitVal c * 10 + digitVal d ∧ h < 24 ∧ m < 60

/-- The number of cents of a decimal literal with at most two fraction digits: the
literal `mantissa * 10^exp` with `-2 ≤ exp` is `mantissa * 10^(exp + 2)` hundredths. -/
def FloatLit.cents (lit : FloatLit) : Option Nat :=
  if lit.hex = true ∨ lit.exp < -2 then none
  else some (lit.mantissa * 10 ^ (lit.exp + 2).toNat)

/-- The sign and the number of cents of a string that is, in full, a decimal amount with
at most two fraction digits, such as `25`, `25.5`, `25.50` or `-0.07`. -/
def amountCents (s : String) : Option (Bool × Nat) :=
  match readFloat s.data with
  | some lit => if lit.rest = [] then lit.cents.map (fun n => (lit.neg, n)) else none
  | none => none

/-- The condition of rule 5 on the description of an item: its length after trimming is
a positive multiple of 3. -/
def countsForRule5 (item : Item) : Prop :=
  0 < byteLen (trimSpace item.shortDescription.data) ∧
    byteLen (trimSpace item.shortDescription.data) % 3 = 0

instance (item : Item) : Decidable (countsForRule5 item) := by
  unfold countsForRule5
  infer_instance

/-- The points of rule 5 for one item in exact decimal arithmetic, for a price that is a
decimal amount with at most two fraction digits: `ceil(price * 0.2)`, which is
`ceil(n / 500)` for a price of `n` cents and `-floor(n / 500)` for a price of `-n` cents,
when the description counts, and 0 otherwise. -/
def exactItemPoints (item : Item) : Int :=
  if countsForRule5 item then
    match amountCents item.price with
    | some (false, n) => (((n + 499) / 500 : Nat) : Int)
    | some (true, n) => -(((n / 500 : Nat)) : Int)
    | none => 0
  else 0

/-- Is the price a decimal amount with at most two fraction digits and fewer than `bound`
cents in magnitude. -/
def centsBelow (bound : Nat) (price : String) : Bool :=
  match amountCents price with
  | some (_, n) => decide (n < bound)
  | none => false

/-- Is the price one that rule 5 turns into a number of points from 0 to the largest
`int`: it does not parse, or it parses to a finite number from 0 to `2^62`. -/
def priceInRange (price : String) : Bool :=
  match parseFloat price.data with
  | (_, true) => true
  | (F64.fin a, false) => decide (0 ≤ a ∧ a ≤ ((2 ^ 62 * unit : Nat) : Int))
  | (_, false) => false

/-- The receipt of `TestComputePoints` (src/main_test.go, lines 37-46). -/
def testReceipt : Receipt :=
  { retailer := "Amazon", purchaseDate := "2023-03-11", purchaseTime := "15:30",
    total := "45.75", items := [⟨"Book", "12.00"⟩, ⟨"Pen", "3.25"⟩] }

/-- A conversion of out-of-range floats that always gives 0, for running examples whose
conversions are all in range. -/
def convZero : F64 → Int := fun _ => 0


/-! ## Arithmetic of `int` -/

theorem wrapInt_add_left (a b : Int) : wrapInt (wrapInt a + b) = wrapInt (a + b) := by
  unfold wrapInt; omega

theorem wrapInt_add_right (a b : Int) : wrapInt (a + wrapInt b) = wrapInt (a + b) := by
  unfold wrapInt; omega

theorem wrapInt_of_mem (z : Int) (h1 : intMin ≤ z) (h2 : z ≤ intMax) : wrapInt z = z := by
  unfold intMin at h1; unfold intMax at h2; unfold wrapInt; omega

theorem wrapInt_idem (z : Int) : wrapInt (wrapInt z) = wrapInt z := by
  unfold wrapInt; omega

theorem wrapInt_bounds (z : Int) : intMin ≤ wrapInt z ∧ wrapInt z ≤ intMax := by
  unfold wrapInt intMin intMax; omega

theorem addInt_wrap (a b : Int) : wrapInt (addInt a b) = wrapInt (wrapInt a + b) := by
  unfold addInt; rw [wrapInt_idem, wrapInt_add_left]

theorem condAdd_wrap (c : Prop) [Decidable c] (k p : Int) :
    wrapInt (condAdd c k p) = wrapInt (wrapInt p + (if c then k else 0)) := by
  unfold condAdd
  split
  · exact addInt_wrap p k
  · rw [add_zero, wrapInt_idem]

theorem condAdd_fixed (c : Prop) [Decidable c] (k p : Int) (hp : wrapInt p = p) :
    wrapInt (condAdd c k p) = condAdd c k p := by
  unfold condAdd
  split
  · unfold addInt; rw [wrapInt_idem]
  · exact hp

/-! ## The loop of rule 5 -/

/-- One turn of the loop adds the item's own points to the running total. -/
theorem itemStep_eq (conv : F64 → Int) (p : Int) (item : Item) :
    wrapInt (itemStep conv p item) = wrapInt (p + rule5Item conv item) := by
  unfold rule5Item itemStep
  simp only []
  split
  · split
    · simp
    · unfold addInt; rw [wrapInt_idem, zero_add, wrapInt_add_right]
  · simp

theorem itemStep_fixed (conv : F64 → Int) (p : Int) (item : Item) (hp : wrapInt p = p) :
    wrapInt (itemStep conv p item) = itemStep conv p item := by
  unfold itemStep
  simp only []
  split
  · split
    · exact hp
    · unfold addInt; rw [wrapInt_idem]
  · exact hp

theorem foldl_itemStep_eq (conv : F64 → Int) (items : List Item) (p : Int) :
    wrapInt (items.foldl (itemStep conv) p)
      = wrapInt (p + (items.map (rule5Item conv)).sum) := by
  induction items generalizing p with
  | nil => simp
  | cons it rest ih =>
    rw [List.foldl_cons, ih, ← wrapInt_add_left, itemStep_eq, wrapInt_add_left, List.map_cons,
      List.sum_cons, add_assoc]

theorem foldl_itemStep_wrap (conv : F64 → Int) (items : List Item) (p : Int) :
    wrapInt (items.foldl (itemStep conv) p)
      = wrapInt (wrapInt p + (items.map (rule5Item conv)).sum) := by
  rw [foldl_itemStep_eq, wrapInt_add_left]

theorem foldl_itemStep_fixed (conv : F64 → Int) (items : List Item) (p : Int)
    (hp : wrapInt p = p) :
    wrapInt (items.foldl (itemStep conv) p) = items.foldl (itemStep conv) p := by
  induction items generalizing p with
  | nil => simpa using hp
  | cons it rest ih =>
    rw [List.foldl_cons]
    exact ih _ (itemStep_fixed conv p it hp)

/-! ## The function as the sum of its rules -/

theorem rule7_step (p : Int) (d : String) :
    (if (splitHyphen d.data).length = 3 then
      match atoi ((splitHyphen d.data).getD 2 []) with
      | some day => if Int.tmod day 2 = 1 then addInt p 6 else p
      | none => p
    else p) = condAdd (rule7 d = 6) 6 p := by
  unfold rule7 condAdd
  simp only []
  by_cases h1 : (splitHyphen d.data).length = 3
  · simp only [h1, if_true]
    cases atoi ((splitHyphen d.data).getD 2 []) with
    | none => simp
    | some day => by_cases h2 : Int.tmod day 2 = 1 <;> simp [h2]
  · simp [h1]

theorem rule8_step (p : Int) (t : String) :
    (match parseClock t.data with
      | some parsedTime =>
        if 14 * 60 < parsedTime ∧ parsedTime < 16 * 60 then addInt p 10 else p
      | none => p) = condAdd (rule8 t = 10) 10 p := by
  unfold rule8 condAdd
  cases parseClock t.data with
  | none => simp
  | some m => by_cases h2 : 14 * 60 < m ∧ m < 16 * 60 <;> simp [h2]

theorem rule7_values (d : String) : (if rule7 d = 6 then (6 : Int) else 0) = rule7 d := by
  unfold rule7
  simp only []
  by_cases h1 : (splitHyphen d.data).length = 3
  · simp only [h1, if_true]
    cases atoi ((splitHyphen d.data).getD 2 []) with
    | none => simp
    | some day => by_cases h2 : Int.tmod day 2 = 1 <;> simp [h2]
  · simp [h1]

theorem rule8_values (t : String) : (if rule8 t = 10 then (10 : Int) else 0) = rule8 t := by
  unfold rule8
  cases parseClock t.data with
  | none => simp
  | some m => by_cases h2 : 14 * 60 < m ∧ m < 16 * 60 <;> simp [h2]

/-- The function body as a composition of its eight steps. -/
theorem computeReceiptPoints_steps (conv : F64 → Int) (r : Receipt) :
    computeReceiptPoints conv r =
      condAdd (rule8 r.purchaseTime = 10) 10
      (condAdd (rule7 r.purchaseDate = 6) 6
      (condAdd (F64.gt (parseFloat r.total.data).1 F64.ten) 5
      (r.items.foldl (itemStep conv)
      (addInt
      (condAdd (F64.eq (F64.mod (parseFloat r.total.data).1 F64.quarter) F64.zero) 25
      (condAdd (F64.eq (parseFloat r.total.data).1 (F64.trunc (parseFloat r.total.data).1)) 50
      (addInt 0 (rule1 r.retailer)))) (rule4 r.items.length))))) := by
  rw [← rule7_step, ← rule8_step]
  rfl

theorem computeReceiptPoints_fixed (conv : F64 → Int) (r : Receipt) :
    wrapInt (computeReceiptPoints conv r) = computeReceiptPoints conv r := by
  rw [computeReceiptPoints_steps]
  apply condAdd_fixed
  apply condAdd_fixed
  apply condAdd_fixed
  apply foldl_itemStep_fixed
  unfold addInt
  rw [wrapInt_idem]

theorem computeReceiptPoints_wrap (conv : F64 → Int) (r : Receipt) :
    computeReceiptPoints conv r = wrapInt (contributions conv r).sum := by
  rw [← computeReceiptPoints_fixed, computeReceiptPoints_steps]
  simp only [condAdd_wrap, foldl_itemStep_wrap, addInt_wrap]
  simp only [wrapInt_add_left, rule7_values, rule8_values]
  unfold contributions rule2 rule3 rule6
  simp only [List.sum_cons, List.sum_nil]
  congr 1
  ring


/-- A valid 24-hour time written `HH:MM`: two digits, a colon, two digits, the hour below
24 and the minute below 60. -/
theorem digitVal_le (c : Char) (h : isDigit c = true) : digitVal c ≤ 9 := by
  unfold isDigit at h; unfold digitVal; simp at h; omega

theorem splitHyphen_ne_nil (s : List Char) : splitHyphen s ≠ [] := by
  cases s with
  | nil => simp [splitHyphen]
  | cons c cs =>
    unfold splitHyphen
    split
    · simp
    · split <;> simp

theorem splitHyphen_no_hyphen (s : List Char) : ∀ f ∈ splitHyphen s, '-' ∉ f := by
  induction s with
  | nil => simp [splitHyphen]
  | cons c cs ih =>
    unfold splitHyphen
    split
    · intro f hf
      rcases List.mem_cons.1 hf with h | h
      · simp [h]
      · exact ih f h
    · rename_i hc
      split
      · rename_i f fs heq
        intro g hg
        rw [heq] at ih
        rcases List.mem_cons.1 hg with h | h
        · rw [h]
          intro hmem
          rcases List.mem_cons.1 hmem with h1 | h1
          · exact hc h1.symm
          · exact ih f (List.mem_cons_self _ _) h1
        · exact ih g (List.mem_cons_of_mem _ h)
      · intro g hg
        simp at hg
        rw [hg]
        simp
        exact fun h => hc h.symm

theorem atoi_nonneg (f : List Char) (day : Int) (hf : '-' ∉ f) (h : atoi f = some day) :
    0 ≤ day := by
  cases f with
  | nil => simp [atoi] at h
  | cons c cs =>
    have hc : ¬ c = '-' := fun hc => hf (by simp [hc])
    unfold atoi at h
    simp only [hc, decide_False, or_false] at h
    split_ifs at h <;> simp at h <;> first | contradiction | omega

theorem tmod_two_eq_one (day : Int) (h : 0 ≤ day) : Int.tmod day 2 = 1 ↔ Odd day := by
  rw [Int.tmod_eq_emod h (by norm_num), Int.odd_iff]

theorem rule7_iff (d : String) :
    rule7 d = 6 ↔ ∃ y m dd day, splitHyphen d.data = [y, m, dd] ∧ atoi dd = some day ∧ Odd day := by
  unfold rule7
  simp only []
  constructor
  · intro h
    by_cases h1 : (splitHyphen d.data).length = 3
    · match hs : splitHyphen d.data, h1 with
      | [y, m, dd], _ =>
        rw [hs] at h
        simp only [List.getD_cons_succ, List.getD_cons_zero, List.length_cons,
          List.length_nil, if_true] at h
        cases ha : atoi dd with
        | none => rw [ha] at h; simp at h
        | some day =>
          rw [ha] at h
          simp only at h
          by_cases h2 : Int.tmod day 2 = 1
          · refine ⟨y, m, dd, day, rfl, ha, ?_⟩
            have hno := splitHyphen_no_hyphen d.data dd (by rw [hs]; simp)
            exact (tmod_two_eq_one day (atoi_nonneg dd day hno ha)).1 h2
          · rw [if_neg h2] at h
            exact absurd h (by norm_num)
    · rw [if_neg h1] at h
      exact absurd h (by norm_num)
  · rintro ⟨y, m, dd, day, hs, ha, hodd⟩
    have hno := splitHyphen_no_hyphen d.data dd (by rw [hs]; simp)
    have h2 := (tmod_two_eq_one day (atoi_nonneg dd day hno ha)).2 hodd
    rw [hs]
    simp [ha, h2]

theorem getnum_fixed (v : List Char) (n : Nat) (rest : List Char)
    (h : getnum v true = some (n, rest)) :
    ∃ c d, v = c :: d :: rest ∧ isDigit c = true ∧ isDigit d = true ∧
      n = digitVal c * 10 + digitVal d := by
  unfold getnum at h
  match v, h with
  | [c], h => by_cases hc : isDigit c = true <;> simp [hc] at h
  | c :: d :: w, h =>
    by_cases hc : isDigit c = true <;> by_cases hd : isDigit d = true <;> simp [hc, hd] at h
    exact ⟨c, d, by rw [h.2], hc, hd, h.1.symm⟩

theorem getnum_free (s : List Char) (n : Nat) (rest : List Char)
    (h : getnum s false = some (n, rest)) :
    (∃ c d, s = c :: d :: rest ∧ isDigit c = true ∧ isDigit d = true ∧
      n = digitVal c * 10 + digitVal d) ∨ n ≤ 9 := by
  unfold getnum at h
  match s, h with
  | [c], h =>
    by_cases hc : isDigit c = true <;> simp [hc] at h
    right; rw [← h.1]; exact digitVal_le c hc
  | c :: d :: w, h =>
    by_cases hc : isDigit c = true <;> by_cases hd : isDigit d = true <;> simp [hc, hd] at h
    · left; exact ⟨c, d, by rw [h.2], hc, hd, h.1.symm⟩
    · right; rw [← h.1]; exact digitVal_le c hc

theorem parseClock_of_isClock (s : List Char) (h m : Nat) (hc : IsClock s h m) :
    parseClock s = some (h * 60 + m) := by
  obtain ⟨a, b, c, d, hs, ha, hb, hc, hd, hh, hm, hh24, hm60⟩ := hc
  subst hs
  unfold parseClock getnum
  simp only [ha, hb, hc, hd, Bool.not_true, Bool.false_eq_true, if_false, if_true, ← hh, ← hm]
  simp [Nat.not_le.2 hh24, Nat.not_le.2 hm60]

theorem isClock_of_parseClock (s : List Char) (t : Nat) (hp : parseClock s = some t)
    (ht : 600 ≤ t) : ∃ h m, IsClock s h m ∧ t = h * 60 + m := by
  unfold parseClock at hp
  cases hg : getnum s false with
  | none => rw [hg] at hp; simp at hp
  | some r =>
    obtain ⟨hour, v⟩ := r
    rw [hg] at hp
    simp only at hp
    by_cases h24 : 24 ≤ hour
    · simp [h24] at hp
    · rw [if_neg h24] at hp
      match v, hg, hp with
      | c :: v1, hg, hp =>
        by_cases hcol : c = ':'
        · subst hcol
          simp only [ne_eq, not_true_eq_false, if_false] at hp
          cases hg2 : getnum v1 true with
          | none => rw [hg2] at hp; simp at hp
          | some r2 =>
            obtain ⟨min, v2⟩ := r2
            rw [hg2] at hp
            simp only at hp
            by_cases h60 : 60 ≤ min
            · simp [h60] at hp
            · rw [if_neg h60] at hp
              by_cases hv2 : v2 = []
              · subst hv2
                simp at hp
                obtain ⟨c2, d2, hv1, hc2, hd2, hmin⟩ := getnum_fixed v1 min [] hg2
                rcases getnum_free s hour (':' :: v1) hg with ⟨c1, d1, hs, hc1, hd1, hhour⟩ | hsmall
                · refine ⟨hour, min, ⟨c1, d1, c2, d2, ?_, hc1, hd1, hc2, hd2, hhour, hmin, ?_, ?_⟩,
                    hp.symm⟩
                  · rw [hs, hv1]
                  · omega
                  · omega
                · omega
              · simp [hv2] at hp
        · simp [hcol] at hp

/-- Rule 8 gives its 10 points exactly for the times 14:01 to 15:59. -/
theorem rule8_iff (t : String) :
    rule8 t = 10 ↔ ∃ h m, IsClock t.data h m ∧ ((h = 14 ∧ 1 ≤ m) ∨ h = 15) := by
  unfold rule8
  constructor
  · intro hr
    cases hp : parseClock t.data with
    | none => rw [hp] at hr; simp at hr
    | some p =>
      rw [hp] at hr
      simp only at hr
      by_cases hw : 14 * 60 < p ∧ p < 16 * 60
      · obtain ⟨h, m, hclock, hpm⟩ := isClock_of_parseClock t.data p hp (by omega)
        refine ⟨h, m, hclock, ?_⟩
        obtain ⟨a, b, c, d, _, _, _, _, _, _, _, _, hm60⟩ := hclock
        omega
      · rw [if_neg hw] at hr
        exact absurd hr (by norm_num)
  · rintro ⟨h, m, hclock, hwin⟩
    rw [parseClock_of_isClock t.data h m hclock]
    obtain ⟨a, b, c, d, _, _, _, _, _, _, _, _, hm60⟩ := hclock
    have : 14 * 60 < h * 60 + m ∧ h * 60 + m < 16 * 60 := by omega
    simp [this]



/-! ## Binary length -/

theorem bitLenAux_spec (fuel : Nat) : ∀ n, n ≤ fuel →
    n < 2 ^ bitLenAux fuel n ∧ (n ≠ 0 → 2 ^ (bitLenAux fuel n - 1) ≤ n) := by
  induction fuel with
  | zero =>
    intro n hn
    have : n = 0 := by omega
    subst this
    simp [bitLenAux]
  | succ fuel ih =>
    intro n hn
    unfold bitLenAux
    by_cases h0 : n = 0
    · subst h0; simp
    · rw [if_neg h0]
      by_cases hbig : 18446744073709551616 ≤ n
      · rw [if_pos hbig]
        have hle : n / 18446744073709551616 ≤ fuel := by omega
        obtain ⟨h1, h2⟩ := ih _ hle
        have hne : n / 18446744073709551616 ≠ 0 := by omega
        have h3 := h2 hne
        have hL : 1 ≤ bitLenAux fuel (n / 18446744073709551616) := by
          by_contra hcon
          have : bitLenAux fuel (n / 18446744073709551616) = 0 := by omega
          rw [this] at h1
          simp at h1
          omega
        have e64 : (18446744073709551616 : Nat) = 2 ^ 64 := by norm_num
        constructor
        · rw [pow_add, ← e64]
          have := Nat.div_add_mod n 18446744073709551616
          have := Nat.mod_lt n (show 18446744073709551616 > 0 by norm_num)
          nlinarith
        · intro _
          have : bitLenAux fuel (n / 18446744073709551616) + 64 - 1
              = (bitLenAux fuel (n / 18446744073709551616) - 1) + 64 := by omega
          rw [this, pow_add, ← e64]
          have := Nat.div_mul_le_self n 18446744073709551616
          nlinarith
      · rw [if_neg hbig]
        have hle : n / 2 ≤ fuel := by omega
        obtain ⟨h1, h2⟩ := ih _ hle
        constructor
        · rw [pow_succ]
          omega
        · intro _
          simp only [Nat.add_sub_cancel]
          by_cases h1n : n / 2 = 0
          · have : n = 1 := by omega
            subst this
            have hz : bitLenAux fuel (1 / 2) = 0 := by
              cases fuel <;> simp [bitLenAux]
            rw [hz]; norm_num
          · have h3 := h2 h1n
            have hL : 1 ≤ bitLenAux fuel (n / 2) := by
              by_contra hcon
              have : bitLenAux fuel (n / 2) = 0 := by omega
              rw [this] at h1
              simp at h1
              omega
            have : bitLenAux fuel (n / 2) = (bitLenAux fuel (n / 2) - 1) + 1 := by omega
            rw [this, pow_succ]
            omega

theorem lt_two_pow_bitLen (n : Nat) : n < 2 ^ bitLen n := (bitLenAux_spec n n le_rfl).1

theorem two_pow_bitLen_le (n : Nat) (h : n ≠ 0) : 2 ^ (bitLen n - 1) ≤ n :=
  (bitLenAux_spec n n le_rfl).2 h

theorem bitLen_le_of_lt (n k : Nat) (h : n < 2 ^ k) : bitLen n ≤ k := by
  by_cases h0 : n = 0
  · subst h0
    have : bitLen 0 = 0 := by simp [bitLen, bitLenAux]
    omega
  · have h1 := two_pow_bitLen_le n h0
    by_contra hcon
    have h2 : k ≤ bitLen n - 1 := by omega
    have h3 : 2 ^ k ≤ 2 ^ (bitLen n - 1) := Nat.pow_le_pow_right (by norm_num) h2
    omega

/-! ## Rounding -/

theorem roundHalfEven_err (x y : Nat) (hy : 0 < y) :
    2 * (roundHalfEven x y * y) ≤ 2 * x + y ∧ 2 * x ≤ 2 * (roundHalfEven x y * y) + y := by
  unfold roundHalfEven
  have h1 := Nat.div_add_mod x y
  have h2 := Nat.mod_lt x hy
  rw [Nat.mul_comm] at h1
  simp only []
  generalize x / y = q at h1 ⊢
  generalize x % y = r at h1 h2 ⊢
  subst h1
  split_ifs <;> (try simp only [Nat.add_mul, Nat.one_mul]) <;> generalize q * y = z <;>
    constructor <;> omega

theorem roundHalfEven_eq (x y t : Nat) (h1 : 2 * x < 2 * (t * y) + y)
    (h2 : 2 * (t * y) < 2 * x + y) : roundHalfEven x y = t := by
  have hy : 0 < y := by
    by_contra h
    have : y = 0 := by omega
    subst this
    omega
  obtain ⟨e1, e2⟩ := roundHalfEven_err x y hy
  by_contra hne
  rcases Nat.lt_or_gt_of_ne hne with hlt | hgt
  · have h3 : (roundHalfEven x y + 1) * y ≤ t * y := Nat.mul_le_mul_right y hlt
    rw [Nat.add_mul, Nat.one_mul] at h3
    omega
  · have h3 : (t + 1) * y ≤ roundHalfEven x y * y := Nat.mul_le_mul_right y hgt
    rw [Nat.add_mul, Nat.one_mul] at h3
    omega

theorem roundHalfEven_scale (k x y : Nat) (hk : 0 < k) :
    roundHalfEven (k * x) (k * y) = roundHalfEven x y := by
  unfold roundHalfEven
  simp only [Nat.mul_div_mul_left _ _ hk, Nat.mul_mod_mul_left]
  have e1 : (2 * (k * (x % y)) < k * y) ↔ (2 * (x % y) < y) := by
    rw [show 2 * (k * (x % y)) = k * (2 * (x % y)) by ring]
    exact Nat.mul_lt_mul_left hk
  have e2 : (k * y < 2 * (k * (x % y))) ↔ (y < 2 * (x % y)) := by
    rw [show 2 * (k * (x % y)) = k * (2 * (x % y)) by ring]
    exact Nat.mul_lt_mul_left hk
  simp only [e1, e2]

theorem roundUnits_scale (k a b : Nat) (hk : 0 < k) :
    roundUnits (k * a) (k * b) = roundUnits a b := by
  unfold roundUnits
  simp only [Nat.mul_div_mul_left _ _ hk, Nat.mul_assoc, roundHalfEven_scale _ _ _ hk]

/-- The rounded magnitude is within half a grid step of the exact one. -/
theorem roundUnits_err (a b : Nat) (hb : 0 < b) :
    2 * (roundUnits a b * b) ≤ 2 * a + b * 2 ^ (bitLen (a / b) - 53) ∧
    2 * a ≤ 2 * (roundUnits a b * b) + b * 2 ^ (bitLen (a / b) - 53) := by
  unfold roundUnits
  simp only []
  have hy : 0 < b * 2 ^ (bitLen (a / b) - 53) := Nat.mul_pos hb (by positivity)
  have h := roundHalfEven_err a (b * 2 ^ (bitLen (a / b) - 53)) hy
  have e : roundHalfEven a (b * 2 ^ (bitLen (a / b) - 53)) * 2 ^ (bitLen (a / b) - 53) * b
      = roundHalfEven a (b * 2 ^ (bitLen (a / b) - 53)) * (b * 2 ^ (bitLen (a / b) - 53)) := by
    ring
  rw [e]
  exact h

/-- A magnitude on the grid that is strictly within half a grid step of the exact value
is the rounded magnitude. -/
theorem roundUnits_eq (a b t : Nat)
    (h1 : 2 * a < 2 * (t * 2 ^ (bitLen (a / b) - 53) * b) + b * 2 ^ (bitLen (a / b) - 53))
    (h2 : 2 * (t * 2 ^ (bitLen (a / b) - 53) * b) < 2 * a + b * 2 ^ (bitLen (a / b) - 53)) :
    roundUnits a b = t * 2 ^ (bitLen (a / b) - 53) := by
  unfold roundUnits
  simp only []
  congr 1
  apply roundHalfEven_eq
  · rw [show t * (b * 2 ^ (bitLen (a / b) - 53)) = t * 2 ^ (bitLen (a / b) - 53) * b by ring]
    exact h1
  · rw [show t * (b * 2 ^ (bitLen (a / b) - 53)) = t * 2 ^ (bitLen (a / b) - 53) * b by ring]
    exact h2

/-- A magnitude on the grid is not changed by rounding. -/
theorem roundUnits_exact (b m : Nat) (hb : 0 < b) (hm : 2 ^ (bitLen m - 53) ∣ m) :
    roundUnits (m * b) b = m := by
  have hdiv : m * b / b = m := Nat.mul_div_cancel _ hb
  obtain ⟨t, ht⟩ := hm
  have ht2 : t * 2 ^ (bitLen m - 53) = m := by rw [Nat.mul_comm]; exact ht.symm
  have hpos : 0 < b * 2 ^ (bitLen m - 53) := Nat.mul_pos hb (by positivity)
  have h := roundUnits_eq (m * b) b t
  rw [hdiv, ht2] at h
  exact h (by omega) (by omega)

theorem unit_eq : unit = 64 * 2 ^ 1068 := by decide!

theorem quarter_eq : (2 : Nat) ^ 1072 = 16 * 2 ^ 1068 := by decide!

theorem overflowUnits_gt : 2 ^ 64 * 2 ^ 1068 < overflowUnits := by decide!

/-- The grid step of an amount below `2^47` is at most `2^1068` units (`2^-6`). -/
theorem cents_step (n : Nat) (hn : n < 100 * 2 ^ 47) :
    ∃ s, bitLen (n * unit / 100) - 53 = s ∧ s ≤ 1068 := by
  refine ⟨_, rfl, ?_⟩
  have h1 : n * unit / 100 < 2 ^ 1121 := by
    apply Nat.div_lt_of_lt_mul
    rw [unit_eq]
    have : (2:Nat) ^ 1121 = 2 ^ 53 * 2 ^ 1068 := by rw [← pow_add]
    rw [this]
    have hp : 0 < (2:Nat) ^ 1068 := by positivity
    nlinarith
  have := bitLen_le_of_lt _ _ h1
  omega

theorem cents_round (n : Nat) (hn : n < 100 * 2 ^ 47) :
    roundUnits (n * unit) 100 < overflowUnits ∧
    (2 ^ 1072 ∣ roundUnits (n * unit) 100 ↔ 25 ∣ n) ∧
    (unit ∣ roundUnits (n * unit) 100 ↔ 100 ∣ n) := by
  obtain ⟨s, hs, hs68⟩ := cents_step n hn
  obtain ⟨e1, e2⟩ := roundUnits_err (n * unit) 100 (by norm_num)
  rw [hs] at e1 e2
  have hpow : 2 ^ s ≤ 2 ^ 1068 := Nat.pow_le_pow_right (Nat.succ_pos 1) hs68
  have hdvd : 2 ^ s ∣ 2 ^ 1068 := pow_dvd_pow 2 hs68
  have hover : 2 ^ 64 * 2 ^ 1068 < overflowUnits := overflowUnits_gt
  rw [unit_eq] at e1 e2 hs ⊢
  rw [quarter_eq]
  generalize 2 ^ 1068 = P at *
  have hPpos : 0 < P := by
    rcases Nat.eq_zero_or_pos P with h | h
    · subst h; simp at hpow
    · exact h
  have hexact : ∀ t : Nat, n * (64 * P) = t * 100 → 2 ^ s ∣ t →
      roundUnits (n * (64 * P)) 100 = t := by
    intro t ht hdt
    rw [ht] at hs ⊢
    rw [Nat.mul_div_cancel _ (by norm_num : 0 < 100)] at hs
    exact roundUnits_exact 100 t (by norm_num) (by rw [hs]; exact hdt)
  generalize hm : roundUnits (n * (64 * P)) 100 = m at *
  refine ⟨?_, ?_, ?_⟩
  · nlinarith
  · constructor
    · rintro ⟨j, hj⟩
      subst hj
      have h1 : (3200 * j) * P ≤ (128 * n + 100) * P := by nlinarith
      have h2 : (128 * n) * P ≤ (3200 * j + 100) * P := by nlinarith
      have h1 := Nat.le_of_mul_le_mul_right h1 hPpos
      have h2 := Nat.le_of_mul_le_mul_right h2 hPpos
      omega
    · rintro ⟨j, hj⟩
      subst hj
      have := hexact (16 * P * j) (by ring)
        (Dvd.dvd.mul_right (Dvd.dvd.mul_left hdvd 16) j)
      rw [this]
      exact Dvd.intro _ rfl
  · constructor
    · rintro ⟨j, hj⟩
      subst hj
      have h1 : (12800 * j) * P ≤ (128 * n + 100) * P := by nlinarith
      have h2 : (128 * n) * P ≤ (12800 * j + 100) * P := by nlinarith
      have h1 := Nat.le_of_mul_le_mul_right h1 hPpos
      have h2 := Nat.le_of_mul_le_mul_right h2 hPpos
      omega
    · rintro ⟨j, hj⟩
      subst hj
      have := hexact (64 * P * j) (by ring)
        (Dvd.dvd.mul_right (Dvd.dvd.mul_left hdvd 64) j)
      rw [this]
      exact Dvd.intro _ rfl

/-! ## `special` and `readFloat` accept disjoint sets of strings -/

theorem readDigits_stop (c : Char) (cs : List Char) (st : ReadState)
    (h1 : c ≠ '_') (h2 : c ≠ '.') (h3 : isDigit c = false) :
    readDigits 10 (c :: cs) st = (st, c :: cs) := by
  unfold readDigits
  simp [h1, h2, h3]

theorem readUnsigned_none (neg : Bool) (c : Char) (cs : List Char)
    (h1 : c ≠ '_') (h2 : c ≠ '.') (h3 : isDigit c = false) :
    readUnsigned neg (c :: cs) = none := by
  have h0 : c ≠ '0' := by
    intro h; subst h; exact absurd h3 (by decide)
  have hhex : (match c :: cs with
      | c0 :: c1 :: _ :: _ => decide (c0 = '0' ∧ lower c1 = 120)
      | _ => false) = false := by
    match cs with
    | [] => rfl
    | [_] => rfl
    | _ :: _ :: _ => simp [h0]
  unfold readUnsigned
  simp only [hhex, Bool.false_eq_true, if_false]
  rw [readDigits_stop c cs _ h1 h2 h3]
  simp

theorem commonLen_pos (c w : Char) (cs ws : List Char)
    (h : 0 < commonLenIgnoreCase (c :: cs) (w :: ws)) :
    (if 65 ≤ c.toNat ∧ c.toNat ≤ 90 then c.toNat + 32 else c.toNat) = w.toNat := by
  unfold commonLenIgnoreCase at h
  simp only [] at h
  by_contra hne
  rw [if_neg hne] at h
  exact absurd h (by norm_num)

theorem letter_not_number (c : Char) (w : Nat) (hw : 97 ≤ w ∧ w ≤ 122)
    (h : (if 65 ≤ c.toNat ∧ c.toNat ≤ 90 then c.toNat + 32 else c.toNat) = w) :
    c ≠ '_' ∧ c ≠ '.' ∧ isDigit c = false := by
  refine ⟨?_, ?_, ?_⟩
  · intro hc; subst hc; simp at h; omega
  · intro hc; subst hc; simp at h; omega
  · unfold isDigit
    simp only [decide_eq_false_iff_not]
    intro hd
    split_ifs at h <;> omega

theorem infLen_head (s : List Char) (n : Nat) (h : infLen s = some n) :
    ∃ c cs, s = c :: cs ∧ c ≠ '_' ∧ c ≠ '.' ∧ isDigit c = false := by
  match s with
  | [] => simp [infLen, commonLenIgnoreCase] at h
  | c :: cs =>
    refine ⟨c, cs, rfl, ?_⟩
    apply letter_not_number c 105 (by norm_num)
    apply commonLen_pos c 'i' cs "nfinity".data
    unfold infLen at h
    simp only [] at h
    by_contra hz
    have hz0 : commonLenIgnoreCase (c :: cs) "infinity".data = 0 := by
      have : "infinity".data = 'i' :: "nfinity".data := rfl
      rw [this]; omega
    rw [hz0] at h
    simp at h

theorem special_none_of_readFloat (s : List Char) (lit : FloatLit)
    (h : readFloat s = some lit) : special s = none := by
  match s with
  | [] => rfl
  | c :: cs =>
    unfold special
    simp only []
    unfold readFloat at h
    simp only [] at h
    by_cases hp : c = '+'
    · simp only [hp, if_true] at h ⊢
      cases hi : infLen cs with
      | none => rfl
      | some n =>
        obtain ⟨d, ds, hs, h1, h2, h3⟩ := infLen_head cs n hi
        rw [hs, readUnsigned_none false d ds h1 h2 h3] at h
        simp at h
    · by_cases hm : c = '-'
      · simp only [hm, if_true] at h ⊢
        simp only [show ¬ ('-' = '+') by decide, if_false] at h ⊢
        cases hi : infLen cs with
        | none => rfl
        | some n =>
          obtain ⟨d, ds, hs, h1, h2, h3⟩ := infLen_head cs n hi
          rw [hs, readUnsigned_none true d ds h1 h2 h3] at h
          simp at h
      · simp only [hp, hm, if_false] at h ⊢
        by_cases hl : c = 'i' ∨ c = 'I' ∨ c = 'n' ∨ c = 'N'
        · have hc : c ≠ '_' ∧ c ≠ '.' ∧ isDigit c = false := by
            rcases hl with h1 | h1 | h1 | h1 <;> subst h1 <;> decide
          rw [readUnsigned_none false c cs hc.1 hc.2.1 hc.2.2] at h
          simp at h
        · have h1 : ¬ (c = 'i' ∨ c = 'I') := fun hx => hl (by tauto)
          have h2 : ¬ (c = 'n' ∨ c = 'N') := fun hx => hl (by tauto)
          simp only [h1, h2, if_false]

/-- The float of a decimal amount of `n` cents, `n` below `100 * 2^47`. -/
theorem value_of_cents (lit : FloatLit) (n : Nat) (h : lit.cents = some n) :
    lit.value = F64.ofUnits lit.neg (n * unit) 100 := by
  unfold FloatLit.cents at h
  split_ifs at h with hc
  simp only [Option.some.injEq] at h
  have hhex : lit.hex = false := by
    cases hh : lit.hex
    · rfl
    · exact absurd (Or.inl hh) hc
  have hexp : -2 ≤ lit.exp := by
    by_contra hlt
    exact hc (Or.inr (by omega))
  unfold FloatLit.value F64.ofRatio F64.ofUnits
  simp only [hhex, Bool.false_eq_true, if_false]
  by_cases h0 : 0 ≤ lit.exp
  · rw [if_pos h0]
    obtain ⟨e, he⟩ := Int.eq_ofNat_of_zero_le h0
    have e1 : lit.exp.toNat = e := by rw [he]; rfl
    have e2 : (lit.exp + 2).toNat = e + 2 := by rw [he]; rfl
    rw [e1]
    rw [e2] at h
    have : n * unit = 100 * (lit.mantissa * 10 ^ e * unit) := by rw [← h, pow_add]; ring
    rw [this, show (100 : Nat) = 100 * 1 by rfl, roundUnits_scale _ _ _ (by norm_num)]
  · rw [if_neg h0]
    have hcases : lit.exp = -1 ∨ lit.exp = -2 := by omega
    rcases hcases with he | he
    · rw [he] at h ⊢
      have e1 : (-(-1 : Int)).toNat = 1 := rfl
      have e2 : ((-1 : Int) + 2).toNat = 1 := rfl
      rw [e1]
      rw [e2] at h
      have : n * unit = 10 * (lit.mantissa * unit) := by rw [← h]; ring
      rw [this, show (100 : Nat) = 10 * 10 ^ 1 by rfl, roundUnits_scale _ _ _ (by norm_num)]
    · rw [he] at h ⊢
      have e1 : (-(-2 : Int)).toNat = 2 := rfl
      have e2 : ((-2 : Int) + 2).toNat = 0 := rfl
      rw [e1]
      rw [e2] at h
      have : n = lit.mantissa := by rw [← h]; ring
      rw [this, show (10 : Nat) ^ 2 = 100 by rfl]

/-- What `ParseFloat` returns for a decimal amount of `n` cents, `n` below `100 * 2^47`:
the nearest float, and no error. -/
theorem parseFloat_of_amountCents (s : String) (neg : Bool) (n : Nat)
    (h : amountCents s = some (neg, n)) (hn : n < 100 * 2 ^ 47) :
    parseFloat s.data
      = (F64.fin (if neg then -(roundUnits (n * unit) 100 : Int)
                  else (roundUnits (n * unit) 100 : Int)), false) := by
  unfold amountCents at h
  cases hr : readFloat s.data with
  | none => rw [hr] at h; simp at h
  | some lit =>
    rw [hr] at h
    simp only at h
    by_cases hrest : lit.rest = []
    · rw [if_pos hrest] at h
      cases hc : lit.cents with
      | none => rw [hc] at h; simp at h
      | some k =>
        rw [hc] at h
        simp only [Option.map_some', Option.some.injEq, Prod.mk.injEq] at h
        obtain ⟨hneg, hk⟩ := h
        subst hk
        unfold parseFloat
        rw [special_none_of_readFloat s.data lit hr, hr]
        simp only [hrest, ne_eq, not_true_eq_false, if_false]
        rw [value_of_cents lit k hc, hneg]
        unfold F64.ofUnits
        simp only []
        rw [if_neg (Nat.not_le.2 (cents_round k hn).1)]
    · rw [if_neg hrest] at h
      simp at h

/-! ## Rules 2 and 3 on decimal amounts -/

theorem signed_dvd (neg : Bool) (m k : Nat) :
    ((k : Int) ∣ (if neg then -(m : Int) else (m : Int))) ↔ k ∣ m := by
  cases neg
  · simp only [Bool.false_eq_true, if_false]; exact Int.natCast_dvd_natCast
  · simp only [if_true]; rw [Int.dvd_neg]; exact Int.natCast_dvd_natCast

theorem mod_eq_zero (a q : Int) (hq : q ≠ 0) :
    F64.eq (F64.mod (F64.fin a) (F64.fin q)) F64.zero = decide (q ∣ a) := by
  unfold F64.mod F64.zero F64.eq
  simp only [hq, if_false]
  by_cases hd : q ∣ a
  · simp [hd, Int.tmod_eq_zero_of_dvd hd]
  · have : ¬ a.tmod q = 0 := fun h => hd (Int.dvd_of_tmod_eq_zero h)
    simp [hd, this]

theorem trunc_eq_self (a : Int) (S : Nat) :
    decide (a = a.tdiv S * S) = decide ((S : Int) ∣ a) := by
  have h0 := Int.tmod_add_tdiv' a S
  by_cases hd : (S : Int) ∣ a
  · have := Int.tmod_eq_zero_of_dvd hd
    have e : a = a.tdiv S * S := by omega
    simp [hd, ← e]
  · have : ¬ a = a.tdiv S * S := by
      intro e
      apply hd
      apply Int.dvd_of_tmod_eq_zero
      omega
    simp only [hd, this]

/-- Rule 3 on a float: 25 points exactly when it is a whole number of quarters. -/
theorem rule3_fin (total : String) (a : Int) (err : Bool)
    (h : parseFloat total.data = (F64.fin a, err)) :
    rule3 total = if ((2 ^ 1072 : Nat) : Int) ∣ a then 25 else 0 := by
  unfold rule3
  simp only [h]
  unfold F64.quarter
  have hq : ((2 ^ 1072 : Nat) : Int) ≠ 0 := by
    have : 0 < (2 : Nat) ^ 1072 := Nat.pos_pow_of_pos 1072 (Nat.succ_pos 1)
    omega
  rw [mod_eq_zero a _ hq]
  by_cases hd : ((2 ^ 1072 : Nat) : Int) ∣ a
  · rw [if_pos hd, if_pos (decide_eq_true hd)]
  · rw [if_neg hd, if_neg (by rw [decide_eq_false hd]; exact Bool.false_ne_true)]

/-- Rule 2 on a float: 50 points exactly when it is a whole number. -/
theorem rule2_fin (total : String) (a : Int) (err : Bool)
    (h : parseFloat total.data = (F64.fin a, err)) :
    rule2 total = if (unit : Int) ∣ a then 50 else 0 := by
  unfold rule2
  simp only [h]
  unfold F64.trunc F64.eq
  simp only []
  have e := trunc_eq_self a unit
  by_cases hd : (unit : Int) ∣ a
  · rw [decide_eq_true hd] at e
    rw [if_pos e, if_pos hd]
  · rw [decide_eq_false hd] at e
    rw [if_neg (by rw [e]; exact Bool.false_ne_true), if_neg hd]

theorem rule3_cents (total : String) (neg : Bool) (n : Nat)
    (h : amountCents total = some (neg, n)) (hn : n < 100 * 2 ^ 47) :
    rule3 total = if n % 25 = 0 then 25 else 0 := by
  rw [rule3_fin total _ false (parseFloat_of_amountCents total neg n h hn)]
  have h1 := signed_dvd neg (roundUnits (n * unit) 100) (2 ^ 1072)
  have h2 := (cents_round n hn).2.1
  by_cases hd : n % 25 = 0
  · rw [if_pos hd, if_pos (h1.2 (h2.2 (Nat.dvd_of_mod_eq_zero hd)))]
  · rw [if_neg hd, if_neg (fun hx => hd (Nat.mod_eq_zero_of_dvd (h2.1 (h1.1 hx))))]

theorem rule2_cents (total : String) (neg : Bool) (n : Nat)
    (h : amountCents total = some (neg, n)) (hn : n < 100 * 2 ^ 47) :
    rule2 total = if n % 100 = 0 then 50 else 0 := by
  rw [rule2_fin total _ false (parseFloat_of_amountCents total neg n h hn)]
  have h1 := signed_dvd neg (roundUnits (n * unit) 100) unit
  have h2 := (cents_round n hn).2.2
  by_cases hd : n % 100 = 0
  · rw [if_pos hd, if_pos (h1.2 (h2.2 (Nat.dvd_of_mod_eq_zero hd)))]
  · rw [if_neg hd, if_neg (fun hx => hd (Nat.mod_eq_zero_of_dvd (h2.1 (h1.1 hx))))]

/-! ## Error bounds of rounding -/

theorem two_pow_step_le (m : Nat) : 2 ^ (bitLen m - 53) ≤ 1 + m := by
  by_cases h : bitLen m ≤ 53
  · have : bitLen m - 53 = 0 := by omega
    rw [this]; simp
  · have hm : m ≠ 0 := by
      intro h0; subst h0
      have : bitLen 0 = 0 := by simp [bitLen, bitLenAux]
      omega
    have h1 := two_pow_bitLen_le m hm
    have h2 : 2 ^ (bitLen m - 53) ≤ 2 ^ (bitLen m - 1) :=
      Nat.pow_le_pow_right (Nat.succ_pos 1) (by omega)
    omega

theorem two_pow_step_mul_le (m : Nat) (h : 2 ^ 52 ≤ m) : 2 ^ (bitLen m - 53) * 2 ^ 52 ≤ m := by
  have hm : m ≠ 0 := by
    intro h0; subst h0
    have : 0 < 2 ^ 52 := Nat.pos_pow_of_pos 52 (Nat.succ_pos 1)
    omega
  have h1 := two_pow_bitLen_le m hm
  have h2 := lt_two_pow_bitLen m
  have h3 : 53 ≤ bitLen m := by
    by_contra hlt
    have : 2 ^ bitLen m ≤ 2 ^ 52 := Nat.pow_le_pow_right (Nat.succ_pos 1) (by omega)
    omega
  have h4 : bitLen m - 53 + 52 = bitLen m - 1 := by omega
  rw [← pow_add, h4]
  exact h1

/-- The rounded magnitude is at most twice the exact one plus one unit. -/
theorem roundUnits_le (a b : Nat) (hb : 0 < b) : roundUnits a b * b ≤ 2 * a + b := by
  obtain ⟨e1, _⟩ := roundUnits_err a b hb
  have h1 := two_pow_step_le (a / b)
  have h2 : b * (a / b) ≤ a := Nat.mul_div_le a b
  have h3 : b * 2 ^ (bitLen (a / b) - 53) ≤ b * (1 + a / b) := Nat.mul_le_mul_left b h1
  rw [Nat.mul_add, Nat.mul_one] at h3
  omega

/-- In the normal range the relative error of rounding is at most `2^-53`. -/
theorem roundUnits_rel (a b : Nat) (hb : 0 < b) (h : 2 ^ 52 ≤ a / b) :
    2 ^ 53 * (roundUnits a b * b) ≤ (2 ^ 53 + 1) * a ∧
    (2 ^ 53 - 1) * a ≤ 2 ^ 53 * (roundUnits a b * b) := by
  obtain ⟨e1, e2⟩ := roundUnits_err a b hb
  have h1 := two_pow_step_mul_le (a / b) h
  have h2 : b * (a / b) ≤ a := Nat.mul_div_le a b
  have h3 : b * (2 ^ (bitLen (a / b) - 53) * 2 ^ 52) ≤ b * (a / b) := Nat.mul_le_mul_left b h1
  generalize roundUnits a b * b = R at *
  generalize 2 ^ (bitLen (a / b) - 53) = G at *
  have h4 : b * G * 2 ^ 52 ≤ a := by
    calc b * G * 2 ^ 52 = b * (G * 2 ^ 52) := by ring
      _ ≤ b * (a / b) := h3
      _ ≤ a := h2
  generalize b * G = W at *
  norm_num at h4 ⊢
  constructor <;> omega

/-! ## One fifth of a decimal amount -/

theorem unit_eq54 : unit = 2 ^ 54 * 2 ^ 1020 := by decide!

theorem unit_pos : 0 < unit := by unfold unit; exact Nat.pos_pow_of_pos _ (Nat.succ_pos 1)

theorem dvd_unit_of_lt (m : Nat) (h : m < 2 ^ 53 * unit) : 2 ^ (bitLen m - 53) ∣ unit := by
  have h1 : m < 2 ^ (53 + 1074) := by
    unfold unit at h
    rw [pow_add]
    exact h
  have h2 := bitLen_le_of_lt m _ h1
  unfold unit
  exact pow_dvd_pow 2 (by omega)

/-- A whole multiple of five below `2^53` is read exactly, and its product with the
float 0.2 is rounded to exactly one fifth of it. -/
theorem fifth_exact (k : Nat) (hk : 5 * k < 2 ^ 53) :
    roundUnits (500 * k * unit) 100 = 5 * k * unit ∧
    roundUnits (5 * k * unit * (3602879701896397 * 2 ^ 1020)) unit = k * unit := by
  constructor
  · have e : 500 * k * unit = (5 * k * unit) * 100 := by ring
    rw [e]
    apply roundUnits_exact _ _ (by norm_num)
    apply Dvd.dvd.mul_left
    apply dvd_unit_of_lt
    exact Nat.mul_lt_mul_of_pos_right hk unit_pos
  · have hS := unit_eq54
    have hSpos := unit_pos
    generalize hE : 2 ^ 1020 = E at *
    have hEpos : 0 < E := by
      rcases Nat.eq_zero_or_pos E with h | h
      · subst h; omega
      · exact h
    -- the exact product is `k * (unit + E)` units
    have hprod : 5 * k * unit * (3602879701896397 * E) = (k * (unit + E)) * unit := by
      rw [hS]; ring
    rw [hprod]
    have hdiv : k * (unit + E) * unit / unit = k * (unit + E) := Nat.mul_div_cancel _ hSpos
    have hlt : k * (unit + E) < 2 ^ 53 * unit := by
      have : k * (unit + E) ≤ k * (2 * unit) := Nat.mul_le_mul_left k (by omega)
      have h2 : k * (2 * unit) = 2 * k * unit := by ring
      have h3 : 2 * k * unit < 2 ^ 53 * unit := Nat.mul_lt_mul_of_pos_right (by omega) hSpos
      omega
    have hdvd := dvd_unit_of_lt _ hlt
    have hup := lt_two_pow_bitLen (k * (unit + E))
    obtain ⟨t, ht⟩ := Dvd.dvd.mul_left hdvd k
    have ht2 : t * 2 ^ (bitLen (k * (unit + E)) - 53) = k * unit := by
      rw [Nat.mul_comm]; exact ht.symm
    have h := roundUnits_eq (k * (unit + E) * unit) unit t
    rw [hdiv, ht2] at h
    apply h
    · -- the excess `k * E` is below half a grid step
      by_cases hk0 : k = 0
      · subst hk0
        simp only [Nat.zero_mul, Nat.mul_zero, Nat.zero_add]
        exact Nat.mul_pos hSpos (Nat.pos_pow_of_pos _ (Nat.succ_pos 1))
      · have hge : 2 ^ 53 ≤ bitLen (k * (unit + E)) ∨ 53 ≤ bitLen (k * (unit + E)) := by
          right
          by_contra hlt53
          have h1 : 2 ^ bitLen (k * (unit + E)) ≤ 2 ^ 53 :=
            Nat.pow_le_pow_right (Nat.succ_pos 1) (by omega)
          have h2 : unit ≤ k * (unit + E) := by
            have : 1 * (unit + E) ≤ k * (unit + E) := Nat.mul_le_mul_right _ (by omega)
            omega
          have h3 : (2:Nat) ^ 53 < 2 ^ 54 * E := by
            have : (2:Nat) ^ 53 < 2 ^ 54 := by norm_num
            nlinarith
          omega
        have h53 : 53 ≤ bitLen (k * (unit + E)) := by
          rcases hge with h1 | h1
          · have : 53 ≤ 2 ^ 53 := by norm_num
            omega
          · exact h1
        have hsplit : bitLen (k * (unit + E)) = (bitLen (k * (unit + E)) - 53) + 53 := by omega
        rw [hsplit, pow_add] at hup
        generalize 2 ^ (bitLen (k * (unit + E)) - 53) = G at *
        -- `k * (unit + E) < G * 2^53` and `unit = 2^54 * E` give `2 * k * E < G`
        have h5 : 2 * k * E < G := by
          by_contra hcon
          have h6 : G ≤ 2 * k * E := by omega
          have h7 : G * 2 ^ 53 ≤ 2 * k * E * 2 ^ 53 := Nat.mul_le_mul_right _ h6
          have h8 : 2 * k * E * 2 ^ 53 = k * unit := by rw [hS]; ring
          have h9 : k * (unit + E) = k * unit + k * E := by ring
          omega
        have h10 : k * (unit + E) * unit = k * unit * unit + k * E * unit := by ring
        have h11 : 2 * (k * E * unit) < unit * G := by
          have : 2 * (k * E * unit) = unit * (2 * k * E) := by ring
          rw [this]
          exact Nat.mul_lt_mul_of_pos_left h5 hSpos
        omega
    · have h10 : k * (unit + E) * unit = k * unit * unit + k * E * unit := by ring
      have h12 : 0 < unit * 2 ^ (bitLen (k * (unit + E)) - 53) :=
        Nat.mul_pos hSpos (Nat.pos_pow_of_pos _ (Nat.succ_pos 1))
      omega

theorem unit_ge_normal : 2 ^ 52 * 100 ≤ unit := by decide!

theorem pointTwo_ge : 200 * 2 ^ 52 ≤ 3602879701896397 * 2 ^ 1020 := by decide!

/-- An amount of `n` cents, `n` below `2^51` and no multiple of 500, is read and multiplied
by the float 0.2 into a float strictly between the two whole numbers around `n / 500`. -/
theorem fifth_between (n : Nat) (hn : n < 2 ^ 51) (hnd : ¬ 500 ∣ n) :
    n / 500 * unit
      < roundUnits (roundUnits (n * unit) 100 * (3602879701896397 * 2 ^ 1020)) unit ∧
    roundUnits (roundUnits (n * unit) 100 * (3602879701896397 * 2 ^ 1020)) unit
      < (n / 500 + 1) * unit := by
  have hS := unit_eq54
  have hSpos := unit_pos
  have hnorm := unit_ge_normal
  have hc := pointTwo_ge
  have hn1 : 1 ≤ n := by
    rcases Nat.eq_zero_or_pos n with h | h
    · subst h; exact absurd (dvd_zero 500) hnd
    · exact h
  -- reading the amount
  have hxn : 2 ^ 52 ≤ n * unit / 100 := by
    rw [Nat.le_div_iff_mul_le (by norm_num)]
    have : 1 * unit ≤ n * unit := Nat.mul_le_mul_right _ hn1
    omega
  obtain ⟨x1, x2⟩ := roundUnits_rel (n * unit) 100 (by norm_num) hxn
  generalize hx : roundUnits (n * unit) 100 = x at *
  -- multiplying by 0.2
  have hx200 : unit ≤ 200 * x := by
    have : 1 * unit ≤ n * unit := Nat.mul_le_mul_right _ hn1
    norm_num at x2
    omega
  have hyn : 2 ^ 52 ≤ x * (3602879701896397 * 2 ^ 1020) / unit := by
    rw [Nat.le_div_iff_mul_le hSpos]
    have h1 : unit * (200 * 2 ^ 52) ≤ (200 * x) * (3602879701896397 * 2 ^ 1020) :=
      Nat.mul_le_mul hx200 hc
    have h2 : unit * (200 * 2 ^ 52) = 200 * (2 ^ 52 * unit) := by ring
    have h3 : (200 * x) * (3602879701896397 * 2 ^ 1020)
        = 200 * (x * (3602879701896397 * 2 ^ 1020)) := by ring
    omega
  obtain ⟨y1, y2⟩ := roundUnits_rel (x * (3602879701896397 * 2 ^ 1020)) unit hSpos hyn
  generalize hy : roundUnits (x * (3602879701896397 * 2 ^ 1020)) unit = y at *
  -- cancel the common factor `2^1020`
  generalize hE : 2 ^ 1020 = E at *
  have hEpos : 0 < E := by
    rcases Nat.eq_zero_or_pos E with h | h
    · subst h; omega
    · exact h
  have y1' : 2 ^ 53 * 2 ^ 54 * y ≤ (2 ^ 53 + 1) * 3602879701896397 * x := by
    apply Nat.le_of_mul_le_mul_right _ hEpos
    calc 2 ^ 53 * 2 ^ 54 * y * E = 2 ^ 53 * (y * unit) := by rw [hS]; ring
      _ ≤ (2 ^ 53 + 1) * (x * (3602879701896397 * E)) := y1
      _ = (2 ^ 53 + 1) * 3602879701896397 * x * E := by ring
  have y2' : (2 ^ 53 - 1) * 3602879701896397 * x ≤ 2 ^ 53 * 2 ^ 54 * y := by
    apply Nat.le_of_mul_le_mul_right _ hEpos
    calc (2 ^ 53 - 1) * 3602879701896397 * x * E
        = (2 ^ 53 - 1) * (x * (3602879701896397 * E)) := by ring
      _ ≤ 2 ^ 53 * (y * unit) := y2
      _ = 2 ^ 53 * 2 ^ 54 * y * E := by rw [hS]; ring
  -- the amount in units, and its bounds
  have hns1 : 1 * unit ≤ n * unit := Nat.mul_le_mul_right _ hn1
  have hns2 : n * unit ≤ (2 ^ 51 - 1) * unit := Nat.mul_le_mul_right _ (by omega)
  have hk : n / 500 * 500 + n % 500 = n := Nat.div_add_mod' n 500
  have hr1 : 1 ≤ n % 500 := by
    rcases Nat.eq_zero_or_pos (n % 500) with h | h
    · exact absurd (Nat.dvd_of_mod_eq_zero h) hnd
    · exact h
  have hr2 : n % 500 < 500 := Nat.mod_lt _ (by norm_num)
  have hks : n / 500 * 500 * unit + n % 500 * unit = n * unit := by rw [← Nat.add_mul, hk]
  have hr1s : 1 * unit ≤ n % 500 * unit := Nat.mul_le_mul_right _ hr1
  have hr2s : n % 500 * unit ≤ 499 * unit := Nat.mul_le_mul_right _ (by omega)
  have hK : n / 500 * 500 * unit = 500 * (n / 500 * unit) := by ring
  have hK1 : (n / 500 + 1) * unit = n / 500 * unit + unit := by ring
  rw [hK1]
  generalize n / 500 * unit = KS at *
  generalize n % 500 * unit = RS at *
  generalize n * unit = NS at *
  generalize unit = S at *
  norm_num at x1 x2 y1' y2' hns1 hns2 hr1s hr2s
  constructor <;> omega

/-! ## Multiplying by 0.2, rounding up, converting -/

theorem roundUnits_zero (b : Nat) (hb : 0 < b) : roundUnits 0 b = 0 := by
  have h := roundUnits_le 0 b hb
  have h2 : roundUnits 0 b * b < 2 * b := by omega
  have h3 : roundUnits 0 b < 2 := Nat.lt_of_mul_lt_mul_right h2
  obtain ⟨e1, _⟩ := roundUnits_err 0 b hb
  have hdiv : 0 / b = 0 := Nat.zero_div b
  rw [hdiv] at e1
  have hb0 : bitLen 0 - 53 = 0 := by simp [bitLen, bitLenAux]
  rw [hb0] at e1
  by_contra hne
  have h1 : roundUnits 0 b = 1 := by omega
  rw [h1] at e1
  omega

/-- The product of two finite floats, the second one non-negative, when it does not
overflow. -/
theorem mul_fin_nat (neg : Bool) (x c : Nat) (hy : roundUnits (x * c) unit < overflowUnits) :
    F64.mul (F64.fin (if neg then -(x : Int) else (x : Int))) (F64.fin (c : Int))
      = F64.fin (if neg then -(roundUnits (x * c) unit : Int)
                 else (roundUnits (x * c) unit : Int)) := by
  unfold F64.mul F64.ofUnits
  simp only []
  have hc : ¬ ((c : Int) < 0) := by omega
  have hxabs : (if neg then -(x : Int) else (x : Int)).natAbs = x := by
    cases neg <;> simp
  rw [Int.natAbs_ofNat, hxabs, if_neg (Nat.not_le.2 hy)]
  by_cases hx0 : x = 0
  · subst hx0
    simp only [Nat.zero_mul, roundUnits_zero unit unit_pos]
    cases neg <;> simp
  · cases neg
    · have : ¬ ((x : Int) < 0) := by omega
      simp [this, hc]
    · have : (-(x : Int) < 0) := by omega
      simp [this, hc]

/-- The product of a finite float with the constant 0.2, when it does not overflow. -/
theorem mul_pointTwo (neg : Bool) (x : Nat)
    (hy : roundUnits (x * (3602879701896397 * 2 ^ 1020)) unit < overflowUnits) :
    F64.mul (F64.fin (if neg then -(x : Int) else (x : Int))) F64.pointTwo
      = F64.fin (if neg then -(roundUnits (x * (3602879701896397 * 2 ^ 1020)) unit : Int)
                 else (roundUnits (x * (3602879701896397 * 2 ^ 1020)) unit : Int)) := by
  unfold F64.pointTwo
  exact mul_fin_nat neg x _ hy

theorem toInt_ceil_exact (conv : F64 → Int) (k : Int) (h1 : intMin ≤ k) (h2 : k ≤ intMax) :
    F64.toInt conv (F64.ceil (F64.fin (k * unit))) = k := by
  have hS : (unit : Int) ≠ 0 := by have := unit_pos; omega
  unfold F64.ceil F64.toInt
  simp only []
  have e1 : -(k * (unit : Int)) / (unit : Int) = -k := by
    rw [← Int.neg_mul]; exact Int.mul_ediv_cancel _ hS
  rw [e1, neg_neg, Int.mul_tdiv_cancel _ hS, if_pos ⟨h1, h2⟩]

theorem toInt_ceil_above (conv : F64 → Int) (y k : Nat) (h1 : k * unit < y)
    (h2 : y < (k + 1) * unit) (h3 : ((k + 1 : Nat) : Int) ≤ intMax) :
    F64.toInt conv (F64.ceil (F64.fin (y : Int))) = ((k + 1 : Nat) : Int) := by
  have hS : (unit : Int) ≠ 0 := by have := unit_pos; omega
  have hSpos : (0 : Int) < unit := by have := unit_pos; omega
  unfold F64.ceil F64.toInt
  simp only []
  have e1 : -(y : Int) / (unit : Int) = -((k + 1 : Nat) : Int) := by
    have := (Int.ediv_emod_unique (a := -(y : Int)) (b := (unit : Int))
      (r := ((k + 1) * unit : Nat) - (y : Int)) (q := -((k + 1 : Nat) : Int)) hSpos).2
      ⟨by push_cast; ring, by
        have : (y : Int) < (((k + 1) * unit : Nat) : Int) := by exact_mod_cast h2
        omega, by
        have : ((k * unit : Nat) : Int) < (y : Int) := by exact_mod_cast h1
        push_cast at this ⊢
        linarith⟩
    exact this.1
  rw [e1, neg_neg, Int.mul_tdiv_cancel _ hS]
  have : intMin ≤ ((k + 1 : Nat) : Int) := by unfold intMin; omega
  rw [if_pos ⟨this, h3⟩]

theorem toInt_ceil_neg (conv : F64 → Int) (y k : Nat) (h1 : k * unit ≤ y)
    (h2 : y < (k + 1) * unit) (h3 : (k : Int) ≤ intMax) :
    F64.toInt conv (F64.ceil (F64.fin (-(y : Int)))) = -(k : Int) := by
  have hS : (unit : Int) ≠ 0 := by have := unit_pos; omega
  have hSpos : (0 : Int) < unit := by have := unit_pos; omega
  unfold F64.ceil F64.toInt
  simp only []
  have e1 : - -(y : Int) / (unit : Int) = (k : Int) := by
    rw [neg_neg]
    have := (Int.ediv_emod_unique (a := (y : Int)) (b := (unit : Int))
      (r := (y : Int) - ((k * unit : Nat) : Int)) (q := (k : Int)) hSpos).2
      ⟨by push_cast; ring, by
        have : ((k * unit : Nat) : Int) ≤ (y : Int) := by exact_mod_cast h1
        omega, by
        have : (y : Int) < (((k + 1) * unit : Nat) : Int) := by exact_mod_cast h2
        push_cast at this ⊢
        linarith⟩
    exact this.1
  rw [e1, Int.neg_mul, Int.neg_tdiv, Int.mul_tdiv_cancel _ hS]
  have : intMin ≤ -(k : Int) ∧ -(k : Int) ≤ intMax := by
    unfold intMin intMax at *; omega
  rw [if_pos this]

/-! ## Rule 5 on decimal prices -/

theorem fifth_bounds (n : Nat) (hn : n < 2 ^ 51) :
    (500 ∣ n →
      roundUnits (roundUnits (n * unit) 100 * (3602879701896397 * 2 ^ 1020)) unit
        = n / 500 * unit) ∧
    (¬ 500 ∣ n →
      n / 500 * unit
        < roundUnits (roundUnits (n * unit) 100 * (3602879701896397 * 2 ^ 1020)) unit ∧
      roundUnits (roundUnits (n * unit) 100 * (3602879701896397 * 2 ^ 1020)) unit
        < (n / 500 + 1) * unit) ∧
    roundUnits (roundUnits (n * unit) 100 * (3602879701896397 * 2 ^ 1020)) unit
      < overflowUnits := by
  have hA : (500 ∣ n →
      roundUnits (roundUnits (n * unit) 100 * (3602879701896397 * 2 ^ 1020)) unit
        = n / 500 * unit) := by
    rintro ⟨k, hk⟩
    subst hk
    have h5 : 5 * k < 2 ^ 53 := by norm_num at hn ⊢; omega
    obtain ⟨e1, e2⟩ := fifth_exact k h5
    rw [e1, e2, Nat.mul_div_cancel_left _ (by norm_num : 0 < 500)]
  have hB := fifth_between n hn
  refine ⟨hA, hB, ?_⟩
  have hlt : roundUnits (roundUnits (n * unit) 100 * (3602879701896397 * 2 ^ 1020)) unit
      < (n / 500 + 1) * unit := by
    by_cases hd : 500 ∣ n
    · rw [hA hd]
      exact Nat.mul_lt_mul_of_pos_right (Nat.lt_succ_self _) unit_pos
    · exact (hB hd).2
  have h1 : (n / 500 + 1) * unit ≤ 2 ^ 51 * unit :=
    Nat.mul_le_mul_right _ (by norm_num at hn ⊢; omega)
  have h2 : 2 ^ 51 * unit ≤ 2 ^ 64 * 2 ^ 1068 := by
    rw [unit_eq]
    have : (2:Nat) ^ 51 * (64 * 2 ^ 1068) = (2 ^ 51 * 64) * 2 ^ 1068 := by ring
    rw [this]
    exact Nat.mul_le_mul_right _ (by norm_num)
  have h3 := overflowUnits_gt
  omega

/-- Rule 5 on an item whose description counts and whose price is a decimal amount with
at most two fraction digits and fewer than `2^51` cents: the points are those of exact
decimal arithmetic. -/
theorem rule5Item_cents (conv : F64 → Int) (item : Item) (neg : Bool) (n : Nat)
    (hq : countsForRule5 item) (h : amountCents item.price = some (neg, n))
    (hn : n < 2 ^ 51) : rule5Item conv item = exactItemPoints item := by
  have hn47 : n < 100 * 2 ^ 47 := by norm_num at hn ⊢; omega
  have hp := parseFloat_of_amountCents item.price neg n h hn47
  obtain ⟨hA, hB, hov⟩ := fifth_bounds n hn
  have hm := mul_pointTwo neg (roundUnits (n * unit) 100) hov
  have hK : ((n / 500 + 1 : Nat) : Int) ≤ intMax := by
    unfold intMax; norm_num at hn; omega
  unfold exactItemPoints
  rw [if_pos hq, h]
  unfold rule5Item itemStep
  unfold countsForRule5 at hq
  simp only [hp, hq, and_self, if_true, Bool.false_eq_true, if_false, hm]
  generalize roundUnits (roundUnits (n * unit) 100 * (3602879701896397 * 2 ^ 1020)) unit = y
    at *
  have hfix : ∀ v : Int, intMin ≤ v → v ≤ intMax → addInt 0 v = v := by
    intro v h1 h2
    unfold addInt
    rw [zero_add, wrapInt_of_mem v h1 h2]
  cases neg
  · simp only [Bool.false_eq_true, if_false]
    by_cases hd : 500 ∣ n
    · have hy := hA hd
      have e : ((y : Nat) : Int) = ((n / 500 : Nat) : Int) * (unit : Int) := by
        rw [hy]; push_cast; ring
      rw [e, toInt_ceil_exact conv _ (by unfold intMin; omega) (by omega)]
      rw [hfix _ (by unfold intMin; omega) (by omega)]
      have e2 : (n + 499) / 500 = n / 500 := by
        obtain ⟨k, hk⟩ := hd
        omega
      rw [e2]
    · obtain ⟨h1, h2⟩ := hB hd
      rw [toInt_ceil_above conv y (n / 500) h1 h2 hK]
      rw [hfix _ (by unfold intMin; omega) hK]
      have hr : n % 500 ≠ 0 := fun h0 => hd (Nat.dvd_of_mod_eq_zero h0)
      have e2 : (n + 499) / 500 = n / 500 + 1 := by omega
      rw [e2]
  · simp only [if_true]
    have hbound : n / 500 * unit ≤ y ∧ y < (n / 500 + 1) * unit := by
      by_cases hd : 500 ∣ n
      · rw [hA hd]
        exact ⟨le_rfl, Nat.mul_lt_mul_of_pos_right (Nat.lt_succ_self _) unit_pos⟩
      · exact ⟨Nat.le_of_lt (hB hd).1, (hB hd).2⟩
    rw [toInt_ceil_neg conv y (n / 500) hbound.1 hbound.2 (by omega)]
    rw [hfix _ (by unfold intMin; omega) (by unfold intMax at *; omega)]

/-! ## Rule 5 never takes points away for prices in range -/

theorem pointTwo_le_quarter : 4 * (3602879701896397 * 2 ^ 1020) ≤ unit := by decide!

theorem overflowUnits_big : (2 ^ 62 + 2) * unit < overflowUnits := by decide!

theorem toInt_ceil_nat (conv : F64 → Int) (y b : Nat) (hy : y ≤ b * unit)
    (hb : ((b + 1 : Nat) : Int) ≤ intMax) :
    0 ≤ F64.toInt conv (F64.ceil (F64.fin (y : Int))) ∧
    F64.toInt conv (F64.ceil (F64.fin (y : Int))) ≤ intMax := by
  have hS := unit_pos
  have hdm := Nat.div_add_mod y unit
  have hlt := Nat.mod_lt y hS
  have hk : y / unit ≤ b := by
    by_contra hcon
    have h1 : (b + 1) * unit ≤ y / unit * unit := Nat.mul_le_mul_right _ (by omega)
    have h2 : y / unit * unit ≤ y := Nat.div_mul_le_self y unit
    have h3 : (b + 1) * unit = b * unit + unit := by ring
    omega
  generalize y / unit = k at *
  rw [Nat.mul_comm] at hdm
  have hkb : (k : Int) ≤ (b : Int) := by exact_mod_cast hk
  have hb' : (b : Int) + 1 ≤ intMax := by exact_mod_cast hb
  by_cases h0 : y % unit = 0
  · have e : (y : Int) = (k : Int) * (unit : Int) := by
      have : y = k * unit := by omega
      exact_mod_cast this
    rw [e, toInt_ceil_exact conv _ (by unfold intMin; omega) (by omega)]
    constructor <;> omega
  · have h1 : k * unit < y := by omega
    have h2 : y < (k + 1) * unit := by
      rw [Nat.add_mul, Nat.one_mul]; omega
    have hk1 : ((k + 1 : Nat) : Int) = (k : Int) + 1 := by push_cast; rfl
    rw [toInt_ceil_above conv y k h1 h2 (by rw [hk1]; omega), hk1]
    constructor <;> omega

theorem rule5Item_nonneg (conv : F64 → Int) (item : Item)
    (h : countsForRule5 item → priceInRange item.price = true) : 0 ≤ rule5Item conv item := by
  unfold rule5Item itemStep
  simp only []
  by_cases hq : countsForRule5 item
  · have hq' := hq
    unfold countsForRule5 at hq'
    rw [if_pos hq']
    have hr := h hq
    unfold priceInRange at hr
    cases hpf : parseFloat item.price.data with
    | mk v err =>
      rw [hpf] at hr
      cases err with
      | true => simp
      | false =>
        simp only [Bool.false_eq_true, if_false]
        cases v with
        | nan => simp at hr
        | inf s => simp at hr
        | fin a =>
          simp only [decide_eq_true_eq] at hr
          obtain ⟨ha0, ha1⟩ := hr
          obtain ⟨x, hx⟩ := Int.eq_ofNat_of_zero_le ha0
          subst hx
          have hx62 : x ≤ 2 ^ 62 * unit := by exact_mod_cast ha1
          have hle := roundUnits_le (x * (3602879701896397 * 2 ^ 1020)) unit unit_pos
          have hc := pointTwo_le_quarter
          have hov := overflowUnits_big
          have hS := unit_pos
          have hy : roundUnits (x * (3602879701896397 * 2 ^ 1020)) unit ≤ (2 ^ 62 + 1) * unit := by
            have h1 : x * (4 * (3602879701896397 * 2 ^ 1020)) ≤ x * unit :=
              Nat.mul_le_mul_left x hc
            have h2 : x * (4 * (3602879701896397 * 2 ^ 1020))
                = 4 * (x * (3602879701896397 * 2 ^ 1020)) := by ring
            have h3 : x * unit ≤ 2 ^ 62 * unit * unit := Nat.mul_le_mul_right _ hx62
            have h4 : roundUnits (x * (3602879701896397 * 2 ^ 1020)) unit * unit
                ≤ (2 ^ 62 + 1) * unit * unit := by
              have : (2 ^ 62 + 1) * unit * unit = 2 ^ 62 * unit * unit + unit * unit := by ring
              have h5 : unit ≤ unit * unit := Nat.le_mul_of_pos_left unit hS
              omega
            exact Nat.le_of_mul_le_mul_right h4 hS
          have hov2 : roundUnits (x * (3602879701896397 * 2 ^ 1020)) unit < overflowUnits := by
            have : (2 ^ 62 + 1) * unit ≤ (2 ^ 62 + 2) * unit := Nat.mul_le_mul_right _ (by omega)
            omega
          have hm := mul_pointTwo false x hov2
          simp only [Bool.false_eq_true, if_false] at hm
          rw [hm]
          obtain ⟨t0, t1⟩ := toInt_ceil_nat conv _ (2 ^ 62 + 1) hy (by unfold intMax; norm_num)
          unfold addInt
          rw [zero_add, wrapInt_of_mem _ (by unfold intMin; omega) t1]
          exact t0
  · unfold countsForRule5 at hq
    rw [if_neg hq]

theorem rule_values_nonneg (r : Receipt) :
    0 ≤ rule1 r.retailer ∧ 0 ≤ rule2 r.total ∧ 0 ≤ rule3 r.total ∧ 0 ≤ rule4 r.items.length ∧
    0 ≤ rule6 r.total ∧ 0 ≤ rule7 r.purchaseDate ∧ 0 ≤ rule8 r.purchaseTime := by
  refine ⟨?_, ?_, ?_, ?_, ?_, ?_, ?_⟩
  · unfold rule1; omega
  · unfold rule2; simp only []; split <;> norm_num
  · unfold rule3; simp only []; split <;> norm_num
  · unfold rule4; omega
  · unfold rule6; split <;> norm_num
  · rw [← rule7_values]; split <;> norm_num
  · rw [← rule8_values]; split <;> norm_num

/-! ## The handlers -/

theorem splitSep_ne_nil (sep : Char) (s : List Char) : splitSep sep s ≠ [] := by
  cases s with
  | nil => simp [splitSep]
  | cons c cs =>
    unfold splitSep
    split
    · simp
    · split <;> simp

theorem splitSep_of_not_mem (sep : Char) (l : List Char) (h : sep ∉ l) :
    splitSep sep l = [l] := by
  induction l with
  | nil => rfl
  | cons c cs ih =>
    have hc : ¬ c = sep := fun hc => h (by simp [hc])
    have hcs : sep ∉ cs := fun hm => h (List.mem_cons_of_mem _ hm)
    unfold splitSep
    rw [if_neg hc, ih hcs]

theorem splitSep_append (sep : Char) (l rest : List Char) (h : sep ∉ l) :
    splitSep sep (l ++ sep :: rest) = l :: splitSep sep rest := by
  induction l with
  | nil =>
    rw [List.nil_append, splitSep, if_pos rfl]
  | cons c cs ih =>
    have hc : ¬ c = sep := fun hc => h (by simp [hc])
    have hcs : sep ∉ cs := fun hm => h (List.mem_cons_of_mem _ hm)
    rw [List.cons_append, splitSep, if_neg hc, ih hcs]

/-- The path of a lookup splits into the four parts the handler expects. -/
theorem split_pointsPath (id : String) (h : '/' ∉ id.data) :
    splitSep '/' (pointsPath id).data = [[], "receipts".data, id.data, "points".data] := by
  have e : (pointsPath id).data
      = [] ++ '/' :: ("receipts".data ++ '/' :: (id.data ++ '/' :: "points".data)) := by
    unfold pointsPath
    simp
  rw [e, splitSep_append '/' [] _ (by simp), splitSep_append '/' _ _ (by decide),
    splitSep_append '/' _ _ h, splitSep_of_not_mem '/' _ (by decide)]

theorem getPointsHandler_of_path (conv : F64 → Int) (store : InMemoryStore) (id : String)
    (h : '/' ∉ id.data) :
    getPointsHandler conv store "GET" (pointsPath id)
      = match store.receipts id with
        | none => (store, ⟨404, Payload.text "Receipt not found"⟩)
        | some receipt => (store, ⟨200, Payload.points (computeReceiptPoints conv receipt)⟩) := by
  unfold getPointsHandler
  rw [split_pointsPath id h]
  simp

theorem uuidChars_no_slash (l : List Char) : ∀ i, uuidChars l i = true → '/' ∉ l := by
  induction l with
  | nil => intro i _; simp
  | cons c cs ih =>
    intro i h
    unfold uuidChars at h
    rw [Bool.and_eq_true] at h
    obtain ⟨h1, h2⟩ := h
    have hc : c ≠ '/' := by
      intro hc
      subst hc
      split_ifs at h1
      · exact absurd h1 (by decide)
      · exact absurd h1 (by decide)
    intro hm
    rcases List.mem_cons.1 hm with h3 | h3
    · exact hc h3.symm
    · exact ih (i + 1) h2 h3

theorem uuid_no_slash (id : String) (h : isUUIDString id = true) : '/' ∉ id.data :=
  uuidChars_no_slash id.data 0 h

/-! ## Rule 1 and the characters of the class -/

theorem char_le_iff (a c : Char) : a ≤ c ↔ a.toNat ≤ c.toNat := by
  rw [Char.le_def, UInt32.le_def, BitVec.le_def]
  rfl

theorem isAlnum_iff (c : Char) :
    isAlnum c = true ↔ (('a' ≤ c ∧ c ≤ 'z') ∨ ('A' ≤ c ∧ c ≤ 'Z') ∨ ('0' ≤ c ∧ c ≤ '9')) := by
  unfold isAlnum
  simp only [decide_eq_true_eq, char_le_iff]
  rfl

theorem countAlnum_eq_countP (s : List Char) :
    countAlnum s
      = s.countP (fun c => decide (('a' ≤ c ∧ c ≤ 'z') ∨ ('A' ≤ c ∧ c ≤ 'Z') ∨ ('0' ≤ c ∧ c ≤ '9'))) := by
  unfold countAlnum
  rw [← List.countP_eq_length_filter]
  apply List.countP_congr
  intro c _
  rw [isAlnum_iff, decide_eq_true_eq]

/-! ## Items that do not count for rule 5 -/

theorem rule5Item_of_not_counts (conv : F64 → Int) (item : Item) (h : ¬ countsForRule5 item) :
    rule5Item conv item = 0 := by
  unfold rule5Item itemStep
  unfold countsForRule5 at h
  simp only []
  rw [if_neg h]

theorem sum_rule5_filter (conv : F64 → Int) (items : List Item) :
    (items.map (rule5Item conv)).sum
      = ((items.filter (fun it => decide (countsForRule5 it))).map (rule5Item conv)).sum := by
  induction items with
  | nil => rfl
  | cons it rest ih =>
    by_cases h : countsForRule5 it
    · rw [List.filter_cons_of_pos (by simpa using h), List.map_cons, List.map_cons,
        List.sum_cons, List.sum_cons, ih]
    · rw [List.filter_cons_of_neg (by simpa using h), List.map_cons, List.sum_cons, ih,
        rule5Item_of_not_counts conv it h, zero_add]

theorem exactItemPoints_bounds (item : Item) (h : centsBelow (2 ^ 51) item.price = true) :
    -(2 ^ 51 : Int) ≤ exactItemPoints item ∧ exactItemPoints item ≤ 2 ^ 51 := by
  unfold centsBelow at h
  unfold exactItemPoints
  split
  · cases ha : amountCents item.price with
    | none => rw [ha] at h; simp at h
    | some p =>
      obtain ⟨neg, n⟩ := p
      rw [ha] at h
      simp only [decide_eq_true_eq] at h
      cases neg
      · simp only []
        norm_num at h ⊢
        constructor <;> omega
      · simp only []
        norm_num at h ⊢
        constructor <;> omega
  · norm_num

theorem rule5Item_of_centsBelow (conv : F64 → Int) (item : Item) (hq : countsForRule5 item)
    (h : centsBelow (2 ^ 51) item.price = true) :
    rule5Item conv item = exactItemPoints item := by
  unfold centsBelow at h
  cases ha : amountCents item.price with
  | none => rw [ha] at h; simp at h
  | some p =>
    obtain ⟨neg, n⟩ := p
    rw [ha] at h
    simp only [decide_eq_true_eq] at h
    exact rule5Item_cents conv item neg n hq ha h

/-! ## Rules 2 and 3 together -/

theorem quarter_dvd_unit : (2 ^ 1072 : Nat) ∣ unit := by
  rw [unit_eq, quarter_eq]
  exact ⟨4, by ring⟩

/-! ## Rule 6 -/

theorem rule6_fin (total : String) (a : Int) (err : Bool)
    (h : parseFloat total.data = (F64.fin a, err)) :
    rule6 total = if ((10 * unit : Nat) : Int) < a then 5 else 0 := by
  unfold rule6
  simp only [h]
  unfold F64.ten F64.gt
  by_cases hd : ((10 * unit : Nat) : Int) < a
  · rw [if_pos hd, if_pos (decide_eq_true hd)]
  · rw [if_neg hd, if_neg (by
      show ¬ (decide (((10 * unit : Nat) : Int) < a) = true)
      rw [decide_eq_false hd]; exact Bool.false_ne_true)]

theorem roundHalfEven_le (x y t : Nat) (hy : 0 < y) (h : x ≤ t * y) : roundHalfEven x y ≤ t := by
  obtain ⟨e1, _⟩ := roundHalfEven_err x y hy
  by_contra hcon
  have h1 : (t + 1) * y ≤ roundHalfEven x y * y := Nat.mul_le_mul_right y (by omega)
  rw [Nat.add_mul, Nat.one_mul] at h1
  omega

theorem roundHalfEven_ge (x y t : Nat) (hy : 0 < y) (h : t * y ≤ x) : t ≤ roundHalfEven x y := by
  obtain ⟨_, e2⟩ := roundHalfEven_err x y hy
  by_contra hcon
  have h1 : (roundHalfEven x y + 1) * y ≤ t * y := Nat.mul_le_mul_right y (by omega)
  rw [Nat.add_mul, Nat.one_mul] at h1
  omega

/-- Rounding does not cross a magnitude of its own grid from below. -/
theorem roundUnits_le_of_grid (a b T : Nat) (hb : 0 < b) (h : a ≤ T * b)
    (hT : 2 ^ (bitLen (a / b) - 53) ∣ T) : roundUnits a b ≤ T := by
  obtain ⟨t, ht⟩ := hT
  unfold roundUnits
  simp only []
  generalize 2 ^ (bitLen (a / b) - 53) = G at *
  have hG : 0 < G ∨ G = 0 := by omega
  rcases Nat.eq_zero_or_pos G with h0 | hpos
  · subst h0; simp
  · subst ht
    rw [Nat.mul_comm G t]
    apply Nat.mul_le_mul_right
    apply roundHalfEven_le _ _ _ (Nat.mul_pos hb hpos)
    calc a ≤ G * t * b := h
      _ = t * (b * G) := by ring

/-- Rounding does not cross a magnitude of its own grid from above. -/
theorem roundUnits_ge_of_grid (a b T : Nat) (hb : 0 < b) (h : T * b ≤ a)
    (hT : 2 ^ (bitLen (a / b) - 53) ∣ T) : T ≤ roundUnits a b := by
  obtain ⟨t, ht⟩ := hT
  unfold roundUnits
  simp only []
  have hpos : 0 < 2 ^ (bitLen (a / b) - 53) := Nat.pos_pow_of_pos _ (Nat.succ_pos 1)
  generalize 2 ^ (bitLen (a / b) - 53) = G at *
  subst ht
  rw [Nat.mul_comm G t]
  apply Nat.mul_le_mul_right
  apply roundHalfEven_ge _ _ _ (Nat.mul_pos hb hpos)
  calc t * (b * G) = G * t * b := by ring
    _ ≤ a := h

/-- A decimal amount of `n` cents is read as a float above 10 exactly when `n` is above
1000, whatever its size. -/
theorem ten_round (n : Nat) : 10 * unit < roundUnits (n * unit) 100 ↔ 1000 < n := by
  have hS := unit_pos
  have hnorm := unit_ge_normal
  constructor
  · intro h
    by_contra hcon
    have hn : n ≤ 1000 := by omega
    have hle : n * unit ≤ 10 * unit * 100 := by
      have : n * unit ≤ 1000 * unit := Nat.mul_le_mul_right _ hn
      omega
    have hlt : n * unit / 100 < 2 ^ 53 * unit := by
      have h1 : n * unit / 100 ≤ 10 * unit := by
        apply Nat.div_le_of_le_mul
        omega
      have h2 : 10 * unit < 2 ^ 53 * unit := Nat.mul_lt_mul_of_pos_right (by norm_num) hS
      omega
    have hgrid := roundUnits_le_of_grid (n * unit) 100 (10 * unit) (by norm_num) hle
      (Dvd.dvd.mul_left (dvd_unit_of_lt _ hlt) 10)
    omega
  · intro hn
    have hxn : 2 ^ 52 ≤ n * unit / 100 := by
      rw [Nat.le_div_iff_mul_le (by norm_num)]
      have : 1 * unit ≤ n * unit := Nat.mul_le_mul_right _ (by omega)
      omega
    obtain ⟨_, x2⟩ := roundUnits_rel (n * unit) 100 (by norm_num) hxn
    have hns : 1001 * unit ≤ n * unit := Nat.mul_le_mul_right _ (by omega)
    generalize roundUnits (n * unit) 100 = m at *
    generalize n * unit = NS at *
    generalize unit = S at *
    norm_num at x2
    omega

/-- What `ParseFloat` returns for a decimal amount with at most two fraction digits:
the nearest float and no error, or an infinity and an error when the amount is too large
for a float. -/
theorem parseFloat_cents_cases (s : String) (neg : Bool) (n : Nat)
    (h : amountCents s = some (neg, n)) :
    (parseFloat s.data = (F64.inf neg, true) ∧ overflowUnits ≤ roundUnits (n * unit) 100) ∨
    (parseFloat s.data
        = (F64.fin (if neg then -(roundUnits (n * unit) 100 : Int)
                    else (roundUnits (n * unit) 100 : Int)), false) ∧
      roundUnits (n * unit) 100 < overflowUnits) := by
  unfold amountCents at h
  cases hr : readFloat s.data with
  | none => rw [hr] at h; simp at h
  | some lit =>
    rw [hr] at h
    simp only at h
    by_cases hrest : lit.rest = []
    · rw [if_pos hrest] at h
      cases hc : lit.cents with
      | none => rw [hc] at h; simp at h
      | some k =>
        rw [hc] at h
        simp only [Option.map_some', Option.some.injEq, Prod.mk.injEq] at h
        obtain ⟨hneg, hk⟩ := h
        subst hk
        unfold parseFloat
        rw [special_none_of_readFloat s.data lit hr, hr]
        simp only [hrest, ne_eq, not_true_eq_false, if_false]
        rw [value_of_cents lit k hc, hneg]
        unfold F64.ofUnits
        simp only []
        by_cases hov : overflowUnits ≤ roundUnits (k * unit) 100
        · left
          rw [if_pos hov]
          exact ⟨rfl, hov⟩
        · right
          rw [if_neg hov]
          exact ⟨rfl, Nat.not_le.1 hov⟩
    · rw [if_neg hrest] at h
      simp at h

theorem rule6_cents (total : String) (neg : Bool) (n : Nat)
    (h : amountCents total = some (neg, n)) (hok : (parseFloat total.data).2 = false) :
    rule6 total = if neg = false ∧ 1000 < n then 5 else 0 := by
  rcases parseFloat_cents_cases total neg n h with ⟨hp, _⟩ | ⟨hp, _⟩
  · rw [hp] at hok
    exact absurd hok Bool.noConfusion
  · rw [rule6_fin total _ false hp]
    have ht := ten_round n
    have hS := unit_pos
    cases neg
    · simp only [Bool.false_eq_true, if_false, true_and]
      by_cases hn : 1000 < n
      · rw [if_pos hn, if_pos (by exact_mod_cast ht.2 hn)]
      · rw [if_neg hn, if_neg (fun hx => hn (ht.1 (by exact_mod_cast hx)))]
    · simp only [if_true]
      have h1 : (0 : Int) ≤ ((roundUnits (n * unit) 100 : Nat) : Int) := Int.ofNat_nonneg _
      have h2 : (0 : Int) ≤ ((10 * unit : Nat) : Int) := Int.ofNat_nonneg _
      rw [if_neg (by omega), if_neg (fun hx => Bool.noConfusion hx.1)]

/-! ## The score as a flat sum -/

theorem computeReceiptPoints_flat (conv : F64 → Int) (r : Receipt) :
    computeReceiptPoints conv r
      = wrapInt (rule1 r.retailer + rule2 r.total + rule3 r.total + rule4 r.items.length
          + (r.items.map (rule5Item conv)).sum + rule6 r.total + rule7 r.purchaseDate
          + rule8 r.purchaseTime) := by
  rw [computeReceiptPoints_wrap]
  unfold contributions
  simp only [List.sum_cons, List.sum_nil]
  generalize rule1 r.retailer = a1
  generalize rule2 r.total = a2
  generalize rule3 r.total = a3
  generalize rule4 r.items.length = a4
  generalize (r.items.map (rule5Item conv)).sum = a5
  generalize rule6 r.total = a6
  generalize rule7 r.purchaseDate = a7
  generalize rule8 r.purchaseTime = a8
  have e : a1 + (a2 + (a3 + (a4 + (a5 + (a6 + (a7 + (a8 + 0)))))))
      = a1 + a2 + a3 + a4 + a5 + a6 + a7 + a8 := by omega
  rw [e]

/-- The score with the date set apart. -/
theorem computeReceiptPoints_date (conv : F64 → Int) (r : Receipt) :
    computeReceiptPoints conv r
      = wrapInt (computeReceiptPoints conv { r with purchaseDate := "" }
          + rule7 r.purchaseDate) := by
  rw [computeReceiptPoints_flat conv r,
    computeReceiptPoints_flat conv { r with purchaseDate := "" }, wrapInt_add_left]
  have h0 : rule7 "" = 0 := by decide
  simp only [h0]
  generalize rule1 r.retailer = a1
  generalize rule2 r.total = a2
  generalize rule3 r.total = a3
  generalize rule4 r.items.length = a4
  generalize (r.items.map (rule5Item conv)).sum = a5
  generalize rule6 r.total = a6
  generalize rule7 r.purchaseDate = a7
  generalize rule8 r.purchaseTime = a8
  have e : a1 + a2 + a3 + a4 + a5 + a6 + 0 + a8 + a7
      = a1 + a2 + a3 + a4 + a5 + a6 + a7 + a8 := by omega
  rw [e]

/-- The score with the time set apart. -/
theorem computeReceiptPoints_time (conv : F64 → Int) (r : Receipt) :
    computeReceiptPoints conv r
      = wrapInt (computeReceiptPoints conv { r with purchaseTime := "" }
          + rule8 r.purchaseTime) := by
  rw [computeReceiptPoints_flat conv r,
    computeReceiptPoints_flat conv { r with purchaseTime := "" }, wrapInt_add_left]
  have h0 : rule8 "" = 0 := by decide
  simp only [h0, add_zero]

/-! ## Atoi and the decimal notation -/

theorem atoi_core (neg : Bool) (body : List Char) (day : Int) :
    (if body = [] then none
      else if (!body.all isDigit) = true then none
      else if neg = true then
        (if digitsVal body 0 ≤ 9223372036854775808 then some (-(digitsVal body 0 : Int))
          else none)
      else (if digitsVal body 0 < 9223372036854775808 then some (digitsVal body 0 : Int)
          else none)) = some day
    ↔ (if body = [] then none
      else if (!body.all isDigit) = true then none
      else if neg = true then some (-(digitsVal body 0 : Int))
      else some (digitsVal body 0 : Int)) = some day
      ∧ -9223372036854775808 ≤ day ∧ day ≤ 9223372036854775807 := by
  generalize digitsVal body 0 = n
  by_cases h1 : body = []
  · rw [if_pos h1, if_pos h1]
    simp
  · rw [if_neg h1, if_neg h1]
    by_cases h2 : (!body.all isDigit) = true
    · rw [if_pos h2, if_pos h2]
      simp
    · rw [if_neg h2, if_neg h2]
      cases neg with
      | true =>
        simp only [if_true]
        by_cases h3 : n ≤ 9223372036854775808
        · rw [if_pos h3]
          simp only [Option.some.injEq]
          constructor
          · intro h; subst h; omega
          · intro h; exact h.1
        · rw [if_neg h3]
          constructor
          · intro h; exact Option.noConfusion h
          · intro h; simp only [Option.some.injEq] at h; omega
      | false =>
        simp only [Bool.false_eq_true, if_false]
        by_cases h3 : n < 9223372036854775808
        · rw [if_pos h3]
          simp only [Option.some.injEq]
          constructor
          · intro h; subst h; omega
          · intro h; exact h.1
        · rw [if_neg h3]
          constructor
          · intro h; exact Option.noConfusion h
          · intro h; simp only [Option.some.injEq] at h; omega

/-- What `strconv.Atoi` accepts is an integer in decimal notation within the range of a
64-bit `int`. -/
theorem atoi_iff (f : List Char) (day : Int) :
    atoi f = some day ↔ decimalInteger f = some day ∧ intMin ≤ day ∧ day ≤ intMax := by
  cases f with
  | nil => simp [atoi, decimalInteger]
  | cons c cs => exact atoi_core (decide (c = '-')) (if c = '+' ∨ c = '-' then cs else c :: cs) day

theorem decimalInteger_nonneg (f : List Char) (day : Int) (hf : '-' ∉ f)
    (h : decimalInteger f = some day) : 0 ≤ day := by
  cases f with
  | nil => simp [decimalInteger] at h
  | cons c cs =>
    have hc : ¬ c = '-' := fun hc => hf (by simp [hc])
    unfold decimalInteger at h
    simp only [hc, decide_False, or_false] at h
    split_ifs at h <;> simp at h <;> first | contradiction | omega

/-- Rule 7 in terms of the decimal notation: three fields, the third an odd integer that
fits an `int`. -/
theorem rule7_decimal (d : String) :
    rule7 d = 6 ↔ ∃ y m dd day, splitHyphen d.data = [y, m, dd] ∧
      decimalInteger dd = some day ∧ day ≤ intMax ∧ Odd day := by
  rw [rule7_iff]
  constructor
  · rintro ⟨y, m, dd, day, hs, ha, ho⟩
    obtain ⟨h1, _, h3⟩ := (atoi_iff dd day).1 ha
    exact ⟨y, m, dd, day, hs, h1, h3, ho⟩
  · rintro ⟨y, m, dd, day, hs, h1, h3, ho⟩
    have hmem : dd ∈ splitHyphen d.data := by rw [hs]; simp
    have h0 := decimalInteger_nonneg dd day (splitHyphen_no_hyphen d.data dd hmem) h1
    refine ⟨y, m, dd, day, hs, (atoi_iff dd day).2 ⟨h1, ?_, h3⟩, ho⟩
    unfold intMin
    omega

/-! ## Helper lemmas of the claims -/

theorem foldl_addInt (l : List Int) : ∀ p : Int, wrapInt p = p →
    l.foldl addInt p = wrapInt (p + l.sum) := by
  induction l with
  | nil => intro p hp; simp [hp]
  | cons a rest ih =>
    intro p _
    rw [List.foldl_cons, ih (addInt p a) (by unfold addInt; rw [wrapInt_idem])]
    unfold addInt
    rw [wrapInt_add_left, List.sum_cons, add_assoc]

theorem itemStep_of_err (conv : F64 → Int) (p : Int) (item : Item)
    (herr : (parseFloat item.price.data).2 = true) : itemStep conv p item = p := by
  unfold itemStep
  simp only [herr, if_true]
  split <;> rfl

theorem sum_map_nonneg (conv : F64 → Int) (items : List Item)
    (h : ∀ it ∈ items, countsForRule5 it → priceInRange it.price = true) :
    0 ≤ (items.map (rule5Item conv)).sum := by
  apply List.sum_nonneg
  intro v hv
  obtain ⟨it, hit, rfl⟩ := List.mem_map.1 hv
  exact rule5Item_nonneg conv it (h it hit)

/-! ## The claims -/

/-- C1 fails as stated. With the retailer `A`, the total `1.10` and two items `abc` at
the price `3e19`, the eight contributions are 1, 0, 0, 5, 12000000000000000000, 0, 0
and 0; their sum is 12000000000000000006, and the score is -6446744073709551610: the sum
does not fit the 64-bit `int` in which the code adds. -/
theorem sum_of_rules_overflows :
    contributions convZero ⟨"A", "", "", "1.10", [⟨"abc", "3e19"⟩, ⟨"abc", "3e19"⟩]⟩
      = [1, 0, 0, 5, 12000000000000000000, 0, 0, 0] ∧
    (contributions convZero
      ⟨"A", "", "", "1.10", [⟨"abc", "3e19"⟩, ⟨"abc", "3e19"⟩]⟩).sum = 12000000000000000006 ∧
    computeReceiptPoints convZero ⟨"A", "", "", "1.10", [⟨"abc", "3e19"⟩, ⟨"abc", "3e19"⟩]⟩
      = -6446744073709551610 ∧
    computeReceiptPoints convZero ⟨"A", "", "", "1.10", [⟨"abc", "3e19"⟩, ⟨"abc", "3e19"⟩]⟩
      ≠ (contributions convZero
          ⟨"A", "", "", "1.10", [⟨"abc", "3e19"⟩, ⟨"abc", "3e19"⟩]⟩).sum := by
  decide!

/-- C1, amended. The score is a function of the receipt alone; it is the sum, in `int` arithmetic,
of eight contributions, each a function of one field only (rule 1 of the retailer, rules
2, 3 and 6 of the total, rule 4 of the number of items, rule 5 summed over the items,
rule 7 of the date, rule 8 of the time); adding the eight contributions in any other order
gives the same score; and the score is the plain sum whenever that fits an `int`. -/
theorem computeReceiptPoints_sum_of_rules (conv : F64 → Int) (r : Receipt) :
    computeReceiptPoints conv r
      = wrapInt (rule1 r.retailer + rule2 r.total + rule3 r.total + rule4 r.items.length
          + (r.items.map (rule5Item conv)).sum + rule6 r.total + rule7 r.purchaseDate
          + rule8 r.purchaseTime)
    ∧ (∀ l : List Int, l.Perm (contributions conv r) →
        l.foldl addInt 0 = computeReceiptPoints conv r)
    ∧ (intMin ≤ (contributions conv r).sum → (contributions conv r).sum ≤ intMax →
        computeReceiptPoints conv r = (contributions conv r).sum) := by
  refine ⟨?_, ?_, ?_⟩
  · rw [computeReceiptPoints_wrap]
    unfold contributions
    simp only [List.sum_cons, List.sum_nil]
    congr 1
    ring
  · intro l hl
    rw [foldl_addInt l 0 (by decide), zero_add, hl.sum_eq, computeReceiptPoints_wrap]
  · intro h1 h2
    rw [computeReceiptPoints_wrap, wrapInt_of_mem _ h1 h2]

/-- C1, on the receipt of the test: the score 58 is the plain sum of the contributions
6, 0, 25, 5, 1, 5, 6 and 10. -/
theorem computeReceiptPoints_sum_of_rules_witness :
    contributions convZero testReceipt = [6, 0, 25, 5, 1, 5, 6, 10] ∧
    computeReceiptPoints convZero testReceipt = (contributions convZero testReceipt).sum :=
  ⟨by decide!,
   (computeReceiptPoints_sum_of_rules convZero testReceipt).2.2 (by decide!) (by decide!)⟩

/-- C2 fails as stated. An item with description `abc` and price `-100` brings -20
points, and a receipt that is empty apart from it and the total `1.10` scores -20; two
items with description `abc` and price `3e19` bring 6000000000000000000 points each,
and their sum overflows the 64-bit `int` to a negative score. -/
theorem negative_score :
    computeReceiptPoints convZero ⟨"", "", "", "1.10", [⟨"abc", "-100"⟩]⟩ = -20 ∧
    rule5Item convZero ⟨"abc", "3e19"⟩ = 6000000000000000000 ∧
    computeReceiptPoints convZero ⟨"", "", "", "1.10", [⟨"abc", "3e19"⟩, ⟨"abc", "3e19"⟩]⟩
      = -6446744073709551611 := by
  decide!

/-- C2, amended. When every item whose description counts for rule 5 has a price that
does not parse or parses to a finite number from 0 to `2^62`, and the eight contributions
add up to at most the largest `int`, the score is not negative. -/
theorem score_nonneg (conv : F64 → Int) (r : Receipt)
    (hprice : ∀ it ∈ r.items, countsForRule5 it → priceInRange it.price = true)
    (hsum : (contributions conv r).sum ≤ intMax) :
    0 ≤ computeReceiptPoints conv r := by
  obtain ⟨h1, h2, h3, h4, h6, h7, h8⟩ := rule_values_nonneg r
  have h5 := sum_map_nonneg conv r.items hprice
  have hpos : 0 ≤ (contributions conv r).sum := by
    unfold contributions
    simp only [List.sum_cons, List.sum_nil]
    omega
  rw [computeReceiptPoints_wrap, wrapInt_of_mem _ (by unfold intMin; omega) hsum]
  exact hpos

/-- C2, amended, on the receipt of the test. -/
theorem score_nonneg_witness :
    (∀ it ∈ testReceipt.items, countsForRule5 it → priceInRange it.price = true) ∧
    (contributions convZero testReceipt).sum ≤ intMax ∧
    0 ≤ computeReceiptPoints convZero testReceipt :=
  ⟨by decide!, by decide!, score_nonneg convZero testReceipt (by decide!) (by decide!)⟩

/-- C3 (the code departs from the claim). A total that does not parse is scored as the
number 0: rule 2 gives 50 and rule 3 gives 25, so a receipt that is empty apart from the
total `abc`, or empty altogether, scores 75 where the specification promises 0 from these rules. -/
theorem unparsable_total_scores_75 :
    (parseFloat "abc".data).2 = true ∧ rule2 "abc" = 50 ∧ rule3 "abc" = 25 ∧ rule6 "abc" = 0 ∧
    computeReceiptPoints convZero ⟨"", "", "", "abc", []⟩ = 75 ∧
    (parseFloat "".data).2 = true ∧ computeReceiptPoints convZero ⟨"", "", "", "", []⟩ = 75 := by
  decide!

/-- C4 fails as stated. The total `140737488355328.01` has 01 cents, and the total
`0.2500000000000000000001` is not a multiple of 0.25 (four times its numerator is not
a multiple of its denominator), yet rule 3 gives 25 points to both: each one is rounded
to a float that is a multiple of 0.25. -/
theorem rule3_misclassifies :
    amountCents "140737488355328.01" = some (false, 14073748835532801) ∧
    14073748835532801 % 25 ≠ 0 ∧ rule3 "140737488355328.01" = 25 ∧
    (readFloat "0.2500000000000000000001".data).map (fun l => (l.mantissa, l.exp, l.rest))
      = some (2500000000000000000001, -22, []) ∧
    (4 * 2500000000000000000001) % 10 ^ 22 ≠ 0 ∧ rule3 "0.2500000000000000000001" = 25 := by
  decide!

/-- C4, amended. For a receipt whose total is a decimal amount with at most two fraction
digits and below `2^47` (140737488355328) in magnitude, rule 3 gives 25 points exactly
when the number of cents is a multiple of 25, and 0 otherwise, and these points are what
the total brings to the score through rule 3: the score is the sum, in `int` arithmetic,
of them and of the other seven contributions. -/
theorem rule3_two_decimals (conv : F64 → Int) (r : Receipt) (neg : Bool) (n : Nat)
    (h : amountCents r.total = some (neg, n)) (hn : n < 100 * 2 ^ 47) :
    rule3 r.total = (if n % 25 = 0 then 25 else 0) ∧
    computeReceiptPoints conv r
      = wrapInt (rule1 r.retailer + rule2 r.total + (if n % 25 = 0 then 25 else 0)
          + rule4 r.items.length + (r.items.map (rule5Item conv)).sum + rule6 r.total
          + rule7 r.purchaseDate + rule8 r.purchaseTime) := by
  have h3 := rule3_cents r.total neg n h hn
  refine ⟨h3, ?_⟩
  rw [computeReceiptPoints_flat, h3]

/-- C4, amended, on the receipt of the test, whose total `45.75` earns the 25 points,
and on a receipt with the total `35.35`, which earns none. -/
theorem rule3_two_decimals_witness :
    (amountCents testReceipt.total = some (false, 4575) ∧
      rule3 testReceipt.total = if 4575 % 25 = 0 then 25 else 0) ∧
    (amountCents "35.35" = some (false, 3535) ∧
      computeReceiptPoints convZero ⟨"", "", "", "35.35", []⟩
        = wrapInt (rule1 "" + rule2 "35.35" + (if 3535 % 25 = 0 then 25 else 0)
            + rule4 0 + 0 + rule6 "35.35" + rule7 "" + rule8 "")) :=
  ⟨⟨by decide!, (rule3_two_decimals convZero testReceipt false 4575 (by decide!) (by norm_num)).1⟩,
   ⟨by decide!,
    (rule3_two_decimals convZero ⟨"", "", "", "35.35", []⟩ false 3535 (by decide!)
      (by norm_num)).2⟩⟩

/-- C5 fails as stated. The totals `140737488355328.01` and `25.0000000000000000001` have
a fractional part that is not zero, yet rule 2 gives 50 points to both: each one is
rounded to a float that is a whole number. -/
theorem rule2_misclassifies :
    amountCents "140737488355328.01" = some (false, 14073748835532801) ∧
    14073748835532801 % 100 ≠ 0 ∧ rule2 "140737488355328.01" = 50 ∧
    (readFloat "25.0000000000000000001".data).map (fun l => (l.mantissa, l.exp, l.rest))
      = some (250000000000000000001, -19, []) ∧
    250000000000000000001 % 10 ^ 19 ≠ 0 ∧ rule2 "25.0000000000000000001" = 50 := by
  decide!

/-- C5, amended. For a receipt whose total is a decimal amount with at most two fraction
digits and below `2^47` (140737488355328) in magnitude, rule 2 gives 50 points exactly
when the number of cents is a multiple of 100, and 0 otherwise, and these points are
what the total brings to the score through rule 2: the score is the sum, in `int`
arithmetic, of them and of the other seven contributions. The total `25.00` earns the 50
of rule 2 and the 25 of rule 3, and a receipt that is empty apart from it scores 80 with
the 5 of rule 6; the total `25.10` earns neither, and such a receipt scores 5. -/
theorem rule2_two_decimals (conv : F64 → Int) (r : Receipt) (neg : Bool) (n : Nat)
    (h : amountCents r.total = some (neg, n)) (hn : n < 100 * 2 ^ 47) :
    rule2 r.total = (if n % 100 = 0 then 50 else 0) ∧
    computeReceiptPoints conv r
      = wrapInt (rule1 r.retailer + (if n % 100 = 0 then 50 else 0) + rule3 r.total
          + rule4 r.items.length + (r.items.map (rule5Item conv)).sum + rule6 r.total
          + rule7 r.purchaseDate + rule8 r.purchaseTime) ∧
    (rule2 "25.00" = 50 ∧ rule3 "25.00" = 25) ∧ (rule2 "25.10" = 0 ∧ rule3 "25.10" = 0) ∧
    computeReceiptPoints convZero ⟨"", "", "", "25.00", []⟩ = 80 ∧
    computeReceiptPoints convZero ⟨"", "", "", "25.10", []⟩ = 5 := by
  have h2 := rule2_cents r.total neg n h hn
  refine ⟨h2, ?_, by decide!, by decide!, by decide!, by decide!⟩
  rw [computeReceiptPoints_flat, h2]

/-- C5, amended, on receipts with the totals `25.00` and `25.10`. -/
theorem rule2_two_decimals_witness :
    (amountCents "25.00" = some (false, 2500) ∧
      computeReceiptPoints convZero ⟨"", "", "", "25.00", []⟩
        = wrapInt (rule1 "" + (if 2500 % 100 = 0 then 50 else 0) + rule3 "25.00"
            + rule4 0 + 0 + rule6 "25.00" + rule7 "" + rule8 "")) ∧
    (amountCents "25.10" = some (false, 2510) ∧
      rule2 "25.10" = if 2510 % 100 = 0 then 50 else 0) :=
  ⟨⟨by decide!,
    (rule2_two_decimals convZero ⟨"", "", "", "25.00", []⟩ false 2500 (by decide!)
      (by norm_num)).2.1⟩,
   ⟨by decide!,
    (rule2_two_decimals convZero ⟨"", "", "", "25.10", []⟩ false 2510 (by decide!)
      (by norm_num)).1⟩⟩

/-- C6 fails as stated. With the description `abc`, the price `5.0000000000000000001`
brings 1 point where `ceil(price * 0.2)` is 2, and the price `140737488355330.01` brings
28147497671066 points where `ceil(price * 0.2)` is 28147497671067: the price is rounded
to a float before the multiplication and after it. -/
theorem rule5_not_exact :
    (readFloat "5.0000000000000000001".data).map (fun l => (l.neg, l.mantissa, l.exp, l.rest))
      = some (false, 50000000000000000001, -19, []) ∧
    -((-(50000000000000000001 : Int)) / (5 * 10 ^ 19)) = 2 ∧
    rule5Item convZero ⟨"abc", "5.0000000000000000001"⟩ = 1 ∧
    exactItemPoints ⟨"abc", "140737488355330.01"⟩ = 28147497671067 ∧
    rule5Item convZero ⟨"abc", "140737488355330.01"⟩ = 28147497671066 := by
  decide!

/-- C6, amended. When every item whose description counts for rule 5 (trimmed length a
positive multiple of 3) has a price that is a decimal amount with at most two fraction
digits and fewer than `2^51` cents, each item brings the points of exact decimal
arithmetic, `ceil(price * 0.2)` when its description counts and 0 otherwise, the loop of
rule 5 gives their sum in `int` arithmetic (their plain sum when it fits an `int`), and
the score is the sum of the other rules and of these points. -/
theorem rule5_exact_on_cents (conv : F64 → Int) (r : Receipt)
    (hprice : ∀ it ∈ r.items, countsForRule5 it → centsBelow (2 ^ 51) it.price = true) :
    (∀ it ∈ r.items, rule5Item conv it = exactItemPoints it) ∧
    (∀ it ∈ r.items, ¬ countsForRule5 it → rule5Item conv it = 0) ∧
    rule5 conv r.items = wrapInt (r.items.map exactItemPoints).sum ∧
    (intMin ≤ (r.items.map exactItemPoints).sum → (r.items.map exactItemPoints).sum ≤ intMax →
      rule5 conv r.items = (r.items.map exactItemPoints).sum) ∧
    computeReceiptPoints conv r
      = wrapInt (rule1 r.retailer + rule2 r.total + rule3 r.total + rule4 r.items.length
          + (r.items.map exactItemPoints).sum + rule6 r.total + rule7 r.purchaseDate
          + rule8 r.purchaseTime) := by
  have hzero : ∀ it : Item, ¬ countsForRule5 it → rule5Item conv it = 0 := by
    intro it hq
    unfold rule5Item itemStep
    unfold countsForRule5 at hq
    simp only []
    rw [if_neg hq]
  have hall : ∀ it ∈ r.items, rule5Item conv it = exactItemPoints it := by
    intro it hit
    by_cases hq : countsForRule5 it
    · have hc := hprice it hit hq
      unfold centsBelow at hc
      cases ha : amountCents it.price with
      | none => rw [ha] at hc; simp at hc
      | some p =>
        obtain ⟨neg, n⟩ := p
        rw [ha] at hc
        simp only [decide_eq_true_eq] at hc
        exact rule5Item_cents conv it neg n hq ha hc
    · rw [hzero it hq]
      unfold exactItemPoints
      rw [if_neg hq]
  have hmap : r.items.map (rule5Item conv) = r.items.map exactItemPoints :=
    List.map_congr_left hall
  have hloop : rule5 conv r.items = wrapInt (r.items.map exactItemPoints).sum := by
    unfold rule5
    rw [← foldl_itemStep_fixed conv r.items 0 (by decide), foldl_itemStep_eq, zero_add, hmap]
  refine ⟨hall, fun it _ hq => hzero it hq, hloop, ?_, ?_⟩
  · intro h1 h2
    rw [hloop, wrapInt_of_mem _ h1 h2]
  · rw [computeReceiptPoints_wrap]
    unfold contributions
    simp only [List.sum_cons, List.sum_nil]
    rw [hmap]
    congr 1
    ring

/-- C6, amended, on the receipt of the test: `Book` does not count and `Pen`, at 3.25,
brings `ceil(0.65) = 1` point. -/
theorem rule5_exact_on_cents_witness :
    (∀ it ∈ testReceipt.items, countsForRule5 it → centsBelow (2 ^ 51) it.price = true) ∧
    testReceipt.items.map exactItemPoints = [0, 1] ∧
    rule5 convZero testReceipt.items = wrapInt (testReceipt.items.map exactItemPoints).sum :=
  ⟨by decide!, by decide!, (rule5_exact_on_cents convZero testReceipt (by decide!)).2.2.1⟩

/-- C7. An item whose price does not parse leaves the running total of the loop of
rule 5 unchanged, whatever its description; the loop over the items gives what it gives
without that item, from any starting total; and the score of the receipt is the sum of
the other rules (rule 4 still counting the item) and of rule 5 over the other items.
The function is total: nothing is aborted. -/
theorem unparsable_price_skipped (conv : F64 → Int) (r : Receipt) (before after : List Item)
    (item : Item) (hitems : r.items = before ++ item :: after)
    (herr : (parseFloat item.price.data).2 = true) :
    (∀ p, itemStep conv p item = p) ∧ rule5Item conv item = 0 ∧
    (∀ p, r.items.foldl (itemStep conv) p = (before ++ after).foldl (itemStep conv) p) ∧
    computeReceiptPoints conv r
      = wrapInt (rule1 r.retailer + rule2 r.total + rule3 r.total + rule4 r.items.length
          + ((before ++ after).map (rule5Item conv)).sum + rule6 r.total
          + rule7 r.purchaseDate + rule8 r.purchaseTime) := by
  have hstep : ∀ p, itemStep conv p item = p := fun p => itemStep_of_err conv p item herr
  have hzero : rule5Item conv item = 0 := hstep 0
  refine ⟨hstep, hzero, ?_, ?_⟩
  · intro p
    rw [hitems, List.foldl_append, List.foldl_cons, hstep, List.foldl_append]
  · rw [computeReceiptPoints_wrap]
    unfold contributions
    simp only [List.sum_cons, List.sum_nil]
    rw [hitems]
    simp only [List.map_append, List.map_cons, List.sum_append, List.sum_cons, hzero]
    congr 1
    ring

/-- C7, on a receipt whose first item has the price `x`. -/
theorem unparsable_price_skipped_witness :
    (parseFloat "x".data).2 = true ∧
    computeReceiptPoints convZero ⟨"", "", "", "1.10", [⟨"abc", "x"⟩, ⟨"Pen", "3.25"⟩]⟩
      = wrapInt (rule1 "" + rule2 "1.10" + rule3 "1.10" + rule4 2
          + ([⟨"Pen", "3.25"⟩].map (rule5Item convZero)).sum + rule6 "1.10"
          + rule7 "" + rule8 "") :=
  ⟨by decide!,
   (unparsable_price_skipped convZero ⟨"", "", "", "1.10", [⟨"abc", "x"⟩, ⟨"Pen", "3.25"⟩]⟩
      [] [⟨"Pen", "3.25"⟩] ⟨"abc", "x"⟩ rfl (by decide!)).2.2.2⟩

/-- C8 fails as stated. The date `2023-03-9223372036854775809` splits on the hyphen into
three fields and its third field is the odd integer 9223372036854775809, yet rule 7 gives
it no points, and a receipt with this date and nothing else but the total `1.10` scores
0: the integer does not fit an `int` and `strconv.Atoi` returns an error. -/
theorem rule7_day_out_of_range :
    splitHyphen "2023-03-9223372036854775809".data
      = ["2023".data, "03".data, "9223372036854775809".data] ∧
    decimalInteger "9223372036854775809".data = some 9223372036854775809 ∧
    (9223372036854775809 : Int) % 2 = 1 ∧
    atoi "9223372036854775809".data = none ∧
    rule7 "2023-03-9223372036854775809" = 0 ∧
    computeReceiptPoints convZero ⟨"", "2023-03-9223372036854775809", "", "1.10", []⟩ = 0 := by
  decide!

/-- C8, amended. Rule 7 gives 6 points exactly when the date splits on the hyphen into
exactly three fields and the third field is, in decimal notation, an odd integer not
above the largest `int`, which is what `strconv.Atoi` accepts; in every other case it
gives 0. These points are what the date brings to the score: the score is that of the
same receipt with an empty date plus them. The dates `2023-03-11`, `2023-03-10` and
`2023/03/11` give 6, 0 and 0. The rule is a total function: no date makes it fail. -/
theorem rule7_odd_day (conv : F64 → Int) (r : Receipt) :
    (rule7 r.purchaseDate = 6 ↔
      ∃ year month dayField day,
        splitHyphen r.purchaseDate.data = [year, month, dayField] ∧
        decimalInteger dayField = some day ∧ day ≤ intMax ∧ Odd day) ∧
    (rule7 r.purchaseDate = 6 ↔
      ∃ year month dayField day,
        splitHyphen r.purchaseDate.data = [year, month, dayField] ∧
        atoi dayField = some day ∧ Odd day) ∧
    (rule7 r.purchaseDate = 6 ∨ rule7 r.purchaseDate = 0) ∧
    computeReceiptPoints conv r
      = wrapInt (computeReceiptPoints conv { r with purchaseDate := "" }
          + rule7 r.purchaseDate) ∧
    rule7 "2023-03-11" = 6 ∧ rule7 "2023-03-10" = 0 ∧ rule7 "2023/03/11" = 0 ∧
    computeReceiptPoints convZero ⟨"", "2023-03-11", "", "1.10", []⟩ = 6 ∧
    computeReceiptPoints convZero ⟨"", "2023-03-10", "", "1.10", []⟩ = 0 := by
  refine ⟨rule7_decimal r.purchaseDate, rule7_iff r.purchaseDate, ?_,
    computeReceiptPoints_date conv r, by decide, by decide, by decide, by decide!, by decide!⟩
  have h := rule7_values r.purchaseDate
  by_cases h6 : rule7 r.purchaseDate = 6
  · exact Or.inl h6
  · rw [if_neg h6] at h
    exact Or.inr h.symm

/-- C9. Rule 8 gives 10 points exactly when the time is a valid 24-hour `HH:MM` time
strictly after 14:00 and strictly before 16:00, that is from 14:01 to 15:59; in every
other case, a string that is no valid time included, it gives 0. These points are what
the time brings to the score: the score is that of the same receipt with an empty time
plus them. The times `15:00`, `14:00` and `16:00` give 10, 0 and 0, also in the score of
a receipt that has nothing else but the total `1.10`. -/
theorem rule8_window (conv : F64 → Int) (r : Receipt) :
    (rule8 r.purchaseTime = 10 ↔
      ∃ h m, IsClock r.purchaseTime.data h m ∧ (14 < h ∨ (h = 14 ∧ 0 < m)) ∧ h < 16) ∧
    (rule8 r.purchaseTime = 10 ↔
      ∃ h m, IsClock r.purchaseTime.data h m ∧
        ((h = 14 ∧ 1 ≤ m ∧ m ≤ 59) ∨ (h = 15 ∧ m ≤ 59))) ∧
    (rule8 r.purchaseTime = 10 ∨ rule8 r.purchaseTime = 0) ∧
    computeReceiptPoints conv r
      = wrapInt (computeReceiptPoints conv { r with purchaseTime := "" }
          + rule8 r.purchaseTime) ∧
    rule8 "15:00" = 10 ∧ rule8 "14:00" = 0 ∧ rule8 "16:00" = 0 ∧
    computeReceiptPoints convZero ⟨"", "", "15:00", "1.10", []⟩ = 10 ∧
    computeReceiptPoints convZero ⟨"", "", "14:00", "1.10", []⟩ = 0 ∧
    computeReceiptPoints convZero ⟨"", "", "16:00", "1.10", []⟩ = 0 := by
  refine ⟨?_, ?_, ?_, computeReceiptPoints_time conv r, by decide, by decide, by decide,
    by decide!, by decide!, by decide!⟩
  · rw [rule8_iff]
    constructor
    · rintro ⟨h, m, hc, hw⟩
      exact ⟨h, m, hc, by omega⟩
    · rintro ⟨h, m, hc, hw⟩
      exact ⟨h, m, hc, by omega⟩
  · rw [rule8_iff]
    constructor
    · rintro ⟨h, m, hc, hw⟩
      obtain ⟨a, b, c, d, _, _, _, _, _, _, _, _, hm60⟩ := hc
      exact ⟨h, m, ⟨a, b, c, d, by assumption, by assumption, by assumption, by assumption,
        by assumption, by assumption, by assumption, by assumption, hm60⟩, by omega⟩
    · rintro ⟨h, m, hc, hw⟩
      exact ⟨h, m, hc, by omega⟩
  · have h := rule8_values r.purchaseTime
    by_cases h10 : rule8 r.purchaseTime = 10
    · exact Or.inl h10
    · rw [if_neg h10] at h
      exact Or.inr h.symm

/-- C10. The items of a receipt take part in its score through rule 4 with exactly
`floor(n / 2) * 5` points, `n` being their number and nothing else of them, next to
their points of rule 5: the score is that of the same receipt without items plus these
two amounts. Rule 4 gives 0 for no item, 5 for 2 items, 5 for 3 items and 10 for 4. -/
theorem rule4_pairs (conv : F64 → Int) (r : Receipt) :
    computeReceiptPoints conv r
      = wrapInt (computeReceiptPoints conv { r with items := [] }
          + ((r.items.length / 2 : Nat) : Int) * 5 + (r.items.map (rule5Item conv)).sum) ∧
    rule4 r.items.length = ((r.items.length / 2 : Nat) : Int) * 5 ∧
    rule4 0 = 0 ∧ rule4 2 = 5 ∧ rule4 3 = 5 ∧ rule4 4 = 10 := by
  refine ⟨?_, rfl, by decide, by decide, by decide, by decide⟩
  rw [computeReceiptPoints_wrap conv r, computeReceiptPoints_wrap conv { r with items := [] },
    add_assoc, wrapInt_add_left]
  unfold contributions rule4
  simp only [List.sum_cons, List.sum_nil, List.length_nil, List.map_nil]
  congr 1
  simp only [Nat.zero_div, Nat.cast_zero, zero_mul, add_zero]
  ring

/-- C11 fails as stated. The total `10.0000000000000000001` parses as a number and is
greater than 10.00, yet rule 6 gives it no points: it is read as the float 10. -/
theorem rule6_misses :
    (readFloat "10.0000000000000000001".data).map (fun l => (l.neg, l.mantissa, l.exp, l.rest))
      = some (false, 100000000000000000001, -19, []) ∧
    10 * 10 ^ 19 < 100000000000000000001 ∧
    (parseFloat "10.0000000000000000001".data).2 = false ∧
    rule6 "10.0000000000000000001" = 0 := by
  decide!

/-- C11, amended. For a receipt whose total is a decimal amount with at most two
fraction digits and parses as a number, of any size, rule 6 gives 5 points exactly when
the total is greater than 10.00, that is positive with more than 1000 cents, and 0
otherwise, and these points are what the total brings to the score through rule 6: the
score is the sum, in `int` arithmetic, of them and of the other seven contributions. The
total `10.00` gives 0 and the total `10.01` gives 5; receipts that are empty apart from
these totals score 75 (rules 2 and 3) and 5. -/
theorem rule6_two_decimals (conv : F64 → Int) (r : Receipt) (neg : Bool) (n : Nat)
    (h : amountCents r.total = some (neg, n)) (hok : (parseFloat r.total.data).2 = false) :
    rule6 r.total = (if neg = false ∧ 1000 < n then 5 else 0) ∧
    computeReceiptPoints conv r
      = wrapInt (rule1 r.retailer + rule2 r.total + rule3 r.total + rule4 r.items.length
          + (r.items.map (rule5Item conv)).sum + (if neg = false ∧ 1000 < n then 5 else 0)
          + rule7 r.purchaseDate + rule8 r.purchaseTime) ∧
    rule6 "10.00" = 0 ∧ rule6 "10.01" = 5 ∧
    computeReceiptPoints convZero ⟨"", "", "", "10.00", []⟩ = 75 ∧
    computeReceiptPoints convZero ⟨"", "", "", "10.01", []⟩ = 5 := by
  have h6 := rule6_cents r.total neg n h hok
  refine ⟨h6, ?_, by decide!, by decide!, by decide!, by decide!⟩
  rw [computeReceiptPoints_flat, h6]

/-- C11, amended, on receipts with the totals `10.00` and `10.01`. -/
theorem rule6_two_decimals_witness :
    (amountCents "10.00" = some (false, 1000) ∧ (parseFloat "10.00".data).2 = false ∧
      rule6 "10.00" = if false = false ∧ 1000 < 1000 then 5 else 0) ∧
    (amountCents "10.01" = some (false, 1001) ∧ (parseFloat "10.01".data).2 = false ∧
      computeReceiptPoints convZero ⟨"", "", "", "10.01", []⟩
        = wrapInt (rule1 "" + rule2 "10.01" + rule3 "10.01" + rule4 0 + 0
            + (if false = false ∧ 1000 < 1001 then 5 else 0) + rule7 "" + rule8 "")) :=
  ⟨⟨by decide!, by decide!,
    (rule6_two_decimals convZero ⟨"", "", "", "10.00", []⟩ false 1000 (by decide!)
      (by decide!)).1⟩,
   ⟨by decide!, by decide!,
    (rule6_two_decimals convZero ⟨"", "", "", "10.01", []⟩ false 1001 (by decide!)
      (by decide!)).2.1⟩⟩

/-- C12. Rule 1 gives the number of characters of the retailer that lie in one of the
ranges `a-z`, `A-Z` and `0-9`; every other character adds nothing. The retailer takes
part in the score through this number only: the score is that of the same receipt with
an empty retailer plus this number. `Target` gives 6 and the empty string gives 0. -/
theorem rule1_counts_alnum (conv : F64 → Int) (r : Receipt) :
    rule1 r.retailer
      = ((r.retailer.data.countP (fun c =>
          decide (('a' ≤ c ∧ c ≤ 'z') ∨ ('A' ≤ c ∧ c ≤ 'Z') ∨ ('0' ≤ c ∧ c ≤ '9'))) : Nat) : Int) ∧
    computeReceiptPoints conv r
      = wrapInt (computeReceiptPoints conv { r with retailer := "" } + rule1 r.retailer) ∧
    rule1 "Target" = 6 ∧ rule1 "" = 0 ∧ rule1 "M&M Corner Market" = 14 := by
  refine ⟨?_, ?_, by decide, by decide, by decide⟩
  · unfold rule1
    rw [countAlnum_eq_countP]
  · rw [computeReceiptPoints_wrap conv r,
      computeReceiptPoints_wrap conv { r with retailer := "" }, wrapInt_add_left]
    unfold contributions
    simp only [List.sum_cons, List.sum_nil]
    have h0 : rule1 "" = 0 := by decide
    rw [h0]
    congr 1
    ring

/-- C13. Two receipts that agree in retailer, date, time and total and whose items are a
permutation of one another, duplicates kept, have the same score. -/
theorem score_perm (conv : F64 → Int) (r r' : Receipt) (h1 : r'.retailer = r.retailer)
    (h2 : r'.purchaseDate = r.purchaseDate) (h3 : r'.purchaseTime = r.purchaseTime)
    (h4 : r'.total = r.total) (hperm : r'.items.Perm r.items) :
    computeReceiptPoints conv r' = computeReceiptPoints conv r := by
  rw [computeReceiptPoints_wrap conv r, computeReceiptPoints_wrap conv r']
  unfold contributions
  rw [h1, h2, h3, h4, hperm.length_eq, (hperm.map (rule5Item conv)).sum_eq]

/-- C13, on the receipt of the test and the same receipt with its two items swapped. -/
theorem score_perm_witness :
    computeReceiptPoints convZero { testReceipt with items := [⟨"Pen", "3.25"⟩, ⟨"Book", "12.00"⟩] }
      = computeReceiptPoints convZero testReceipt :=
  score_perm convZero testReceipt
    { testReceipt with items := [⟨"Pen", "3.25"⟩, ⟨"Book", "12.00"⟩] } rfl rfl rfl rfl
    (List.Perm.swap _ _ _)

/-- C14 fails as stated. The receipt of the scenario with the usual five items, whose
two counting items bring 3 points each, scores 33 and not 22 + 3 + 3 = 28: the total
`35.35` is above 10.00 and earns the 5 points of rule 6. And an item with an empty
description, of length 0, brings nothing whatever its price. -/
theorem target_scenario_scores_33 :
    targetReceipt.items.filter (fun it => decide (countsForRule5 it))
      = [⟨"Emils Cheese Pizza", "12.25"⟩, ⟨"   Klarbrunn 12-PK 12 FL OZ  ", "12.00"⟩] ∧
    exactItemPoints ⟨"Emils Cheese Pizza", "12.25"⟩ = 3 ∧
    exactItemPoints ⟨"   Klarbrunn 12-PK 12 FL OZ  ", "12.00"⟩ = 3 ∧
    rule6 "35.35" = 5 ∧
    computeReceiptPoints convZero targetReceipt = 33 ∧
    computeReceiptPoints convZero targetReceipt
      ≠ 22 + exactItemPoints ⟨"Emils Cheese Pizza", "12.25"⟩
          + exactItemPoints ⟨"   Klarbrunn 12-PK 12 FL OZ  ", "12.00"⟩ ∧
    rule5Item convZero ⟨"", "5.00"⟩ = 0 := by
  decide!

/-- C14, amended. A receipt with retailer `Target`, total `35.35`, date `2022-01-01`,
time `13:01` and five items, of which exactly two have a trimmed description whose
length is a positive multiple of 3, scores 27 plus the points of these two items, in
`int` arithmetic: 6 for the retailer, 5 for a total above 10.00, 10 for the two pairs of
items, 6 for the odd day, nothing from rules 2, 3 and 8. When the two prices are decimal
amounts with at most two fraction digits and fewer than `2^51` cents, the score is 27
plus `ceil(price * 0.2)` for each of the two items. -/
theorem target_scenario (conv : F64 → Int) (r : Receipt) (a b : Item)
    (h1 : r.retailer = "Target") (h2 : r.total = "35.35")
    (h3 : r.purchaseDate = "2022-01-01") (h4 : r.purchaseTime = "13:01")
    (h5 : r.items.length = 5)
    (h6 : r.items.filter (fun it => decide (countsForRule5 it)) = [a, b]) :
    computeReceiptPoints conv r = wrapInt (27 + rule5Item conv a + rule5Item conv b) ∧
    (centsBelow (2 ^ 51) a.price = true → centsBelow (2 ^ 51) b.price = true →
      computeReceiptPoints conv r = 27 + exactItemPoints a + exactItemPoints b) := by
  have hscore : computeReceiptPoints conv r
      = wrapInt (27 + rule5Item conv a + rule5Item conv b) := by
    rw [computeReceiptPoints_wrap]
    unfold contributions
    rw [h1, h2, h3, h4, h5, sum_rule5_filter, h6]
    have e1 : rule1 "Target" = 6 := by decide
    have e2 : rule2 "35.35" = 0 := by decide!
    have e3 : rule3 "35.35" = 0 := by decide!
    have e4 : rule4 5 = 10 := by decide
    have e6 : rule6 "35.35" = 5 := by decide!
    have e7 : rule7 "2022-01-01" = 6 := by decide
    have e8 : rule8 "13:01" = 0 := by decide
    rw [e1, e2, e3, e4, e6, e7, e8]
    simp only [List.map_cons, List.map_nil, List.sum_cons, List.sum_nil]
    generalize rule5Item conv a = x
    generalize rule5Item conv b = y
    have e : (6 : Int) + (0 + (0 + (10 + (x + (y + 0) + (5 + (6 + (0 + 0)))))))
        = 27 + x + y := by omega
    rw [e]
  refine ⟨hscore, ?_⟩
  intro ha hb
  have hma : a ∈ r.items.filter (fun it => decide (countsForRule5 it)) := by rw [h6]; simp
  have hmb : b ∈ r.items.filter (fun it => decide (countsForRule5 it)) := by rw [h6]; simp
  have hqa : countsForRule5 a := by simpa using (List.mem_filter.1 hma).2
  have hqb : countsForRule5 b := by simpa using (List.mem_filter.1 hmb).2
  rw [hscore, rule5Item_of_centsBelow conv a hqa ha, rule5Item_of_centsBelow conv b hqb hb]
  obtain ⟨a1, a2⟩ := exactItemPoints_bounds a ha
  obtain ⟨b1, b2⟩ := exactItemPoints_bounds b hb
  apply wrapInt_of_mem
  · unfold intMin; norm_num at a1 b1 ⊢; omega
  · unfold intMax; norm_num at a2 b2 ⊢; omega

/-- C14, amended, on the receipt of the scenario: 27 + 3 + 3 = 33. -/
theorem target_scenario_witness :
    computeReceiptPoints convZero targetReceipt
      = 27 + exactItemPoints ⟨"Emils Cheese Pizza", "12.25"⟩
          + exactItemPoints ⟨"   Klarbrunn 12-PK 12 FL OZ  ", "12.00"⟩ :=
  (target_scenario convZero targetReceipt ⟨"Emils Cheese Pizza", "12.25"⟩
    ⟨"   Klarbrunn 12-PK 12 FL OZ  ", "12.00"⟩ rfl rfl rfl rfl rfl (by decide!)).2
    (by decide!) (by decide!)

/-- C15 fails as stated. The retailer `A` has a character of the class and the two prices
are non-negative decimal amounts, yet the score is negative: the two items bring
6000000000000000000 points each and the sum overflows the 64-bit `int`. -/
theorem positive_score_overflows :
    rule1 "A" = 1 ∧
    amountCents "30000000000000000000.00" = some (false, 3000000000000000000000) ∧
    computeReceiptPoints convZero
      ⟨"A", "", "", "1.10", [⟨"abc", "30000000000000000000.00"⟩, ⟨"abc", "30000000000000000000.00"⟩]⟩
      = -6446744073709551610 := by
  decide!

/-- C15, amended. When the retailer has at least one character of the class
`[a-zA-Z0-9]`, every item whose description counts for rule 5 has a price that does not
parse or parses to a finite number from 0 to `2^62`, and the eight contributions add up
to at most the largest `int`, the score is strictly positive. The receipt of
`TestComputePoints` scores 58. -/
theorem score_positive (conv : F64 → Int) (r : Receipt)
    (hret : ∃ c ∈ r.retailer.data, isAlnum c = true)
    (hprice : ∀ it ∈ r.items, countsForRule5 it → priceInRange it.price = true)
    (hsum : (contributions conv r).sum ≤ intMax) :
    0 < computeReceiptPoints conv r ∧ computeReceiptPoints convZero testReceipt = 58 := by
  refine ⟨?_, by decide!⟩
  obtain ⟨_, h2, h3, h4, h6, h7, h8⟩ := rule_values_nonneg r
  have h5 := sum_map_nonneg conv r.items hprice
  have h1 : 0 < rule1 r.retailer := by
    obtain ⟨c, hc, hal⟩ := hret
    unfold rule1 countAlnum
    have : 0 < (r.retailer.data.filter isAlnum).length :=
      List.length_pos_of_mem (List.mem_filter.2 ⟨hc, hal⟩)
    omega
  have hpos : 0 < (contributions conv r).sum := by
    unfold contributions
    simp only [List.sum_cons, List.sum_nil]
    omega
  rw [computeReceiptPoints_wrap, wrapInt_of_mem _ (by unfold intMin; omega) hsum]
  exact hpos

/-- C15, amended, on the receipt of the test. -/
theorem score_positive_witness :
    (∃ c ∈ testReceipt.retailer.data, isAlnum c = true) ∧
    0 < computeReceiptPoints convZero testReceipt :=
  ⟨⟨'A', by decide, by decide⟩,
   (score_positive convZero testReceipt ⟨'A', by decide, by decide⟩ (by decide!)
      (by decide!)).1⟩

/-- C16. For every store and every receipt `r` decoded from the body, the submission
answers 200 with the generated identifier and stores `r` under it; the lookup of that
identifier on the store after the submission then finds `r` and answers 200 with
`computeReceiptPoints r`. The identifier is a string of the form that
`uuid.New().String()` returns. -/
theorem submit_then_lookup (conv : F64 → Int) (store : InMemoryStore) (r : Receipt)
    (id : String) (hid : isUUIDString id = true) :
    (processReceiptHandler store "POST" (some r) id).2 = ⟨200, Payload.id id⟩ ∧
    (processReceiptHandler store "POST" (some r) id).1.receipts id = some r ∧
    getPointsHandler conv (processReceiptHandler store "POST" (some r) id).1 "GET"
        (pointsPath id)
      = ((processReceiptHandler store "POST" (some r) id).1,
         ⟨200, Payload.points (computeReceiptPoints conv r)⟩) := by
  have hs : (processReceiptHandler store "POST" (some r) id).1.receipts id = some r := by
    simp [processReceiptHandler]
  refine ⟨by simp [processReceiptHandler], hs, ?_⟩
  rw [getPointsHandler_of_path conv _ id (uuid_no_slash id hid), hs]

/-- C16 on the empty store, the receipt of the test and one identifier. -/
theorem submit_then_lookup_witness :
    isUUIDString "7fb1377b-b223-49d9-a31a-5a02701dd310" = true ∧
    getPointsHandler convZero
        (processReceiptHandler emptyStore "POST" (some testReceipt)
          "7fb1377b-b223-49d9-a31a-5a02701dd310").1 "GET"
        (pointsPath "7fb1377b-b223-49d9-a31a-5a02701dd310")
      = ((processReceiptHandler emptyStore "POST" (some testReceipt)
            "7fb1377b-b223-49d9-a31a-5a02701dd310").1,
         ⟨200, Payload.points (computeReceiptPoints convZero testReceipt)⟩) :=
  ⟨by decide,
   (submit_then_lookup convZero emptyStore testReceipt
      "7fb1377b-b223-49d9-a31a-5a02701dd310" (by decide)).2.2⟩

/-- C17 fails as stated for an identifier with a `/` in it: `a/b` is not a key of the
empty store, and the lookup `GET /receipts/a/b/points` is answered 400, not 404, because
the path splits into five parts. -/
theorem lookup_slash_identifier :
    emptyStore.receipts "a/b" = none ∧
    splitSep '/' (pointsPath "a/b").data
      = ["".data, "receipts".data, "a".data, "b".data, "points".data] ∧
    (getPointsHandler convZero emptyStore "GET" (pointsPath "a/b")).2
      = ⟨400, Payload.text "Invalid URL path"⟩ := by
  refine ⟨rfl, by decide, by decide⟩

/-- C17, amended. For every store and every identifier without `/`, the lookup
`GET /receipts/{id}/points` leaves the store unchanged, answers 404 exactly when the
identifier is not a key of the store, answers 200 with the points of the stored receipt
when it is a key, and gives the same answer when it is repeated. Whatever the method and
the path, the handler leaves the store unchanged. -/
theorem lookup_segment (conv : F64 → Int) (store : InMemoryStore) (id : String)
    (h : '/' ∉ id.data) :
    (getPointsHandler conv store "GET" (pointsPath id)).1 = store ∧
    ((getPointsHandler conv store "GET" (pointsPath id)).2.status = 404
      ↔ store.receipts id = none) ∧
    (∀ r, store.receipts id = some r →
      (getPointsHandler conv store "GET" (pointsPath id)).2
        = ⟨200, Payload.points (computeReceiptPoints conv r)⟩) ∧
    getPointsHandler conv (getPointsHandler conv store "GET" (pointsPath id)).1 "GET"
        (pointsPath id)
      = getPointsHandler conv store "GET" (pointsPath id) ∧
    (∀ method path, (getPointsHandler conv store method path).1 = store) := by
  have hall : ∀ method path, (getPointsHandler conv store method path).1 = store := by
    intro method path
    unfold getPointsHandler
    simp only []
    split
    · rfl
    · split
      · rfl
      · split <;> rfl
  have e := getPointsHandler_of_path conv store id h
  refine ⟨hall _ _, ?_, ?_, ?_, hall⟩
  · rw [e]
    cases hr : store.receipts id with
    | none => simp
    | some r => simp
  · intro r hr
    rw [e, hr]
  · rw [hall]

/-- C17, amended, on the empty store and one identifier: the lookup answers 404 exactly
when the identifier is not a key. -/
theorem lookup_segment_witness :
    '/' ∉ "7fb1377b-b223-49d9-a31a-5a02701dd310".data ∧
    ((getPointsHandler convZero emptyStore "GET"
        (pointsPath "7fb1377b-b223-49d9-a31a-5a02701dd310")).2.status = 404
      ↔ emptyStore.receipts "7fb1377b-b223-49d9-a31a-5a02701dd310" = none) :=
  ⟨by decide,
   (lookup_segment convZero emptyStore "7fb1377b-b223-49d9-a31a-5a02701dd310"
      (by decide)).2.1⟩

/-- C18 fails as stated. The write of a submission is a plain map assignment: when the
identifier of the submission is already a key of the store, the receipt stored under it
is replaced. Here the store holds the receipt of the scenario under an identifier, and a
submission of the receipt of the test under the same identifier leaves the store with
the receipt of the test there. -/
theorem submission_overwrites :
    (processReceiptHandler emptyStore "POST" (some targetReceipt)
        "7fb1377b-b223-49d9-a31a-5a02701dd310").1.receipts
      "7fb1377b-b223-49d9-a31a-5a02701dd310" = some targetReceipt ∧
    (processReceiptHandler
        (processReceiptHandler emptyStore "POST" (some targetReceipt)
          "7fb1377b-b223-49d9-a31a-5a02701dd310").1
        "POST" (some testReceipt) "7fb1377b-b223-49d9-a31a-5a02701dd310").1.receipts
      "7fb1377b-b223-49d9-a31a-5a02701dd310" = some testReceipt ∧
    testReceipt ≠ targetReceipt := by
  refine ⟨by simp [processReceiptHandler], by simp [processReceiptHandler], by decide⟩

/-- C18, amended. A submission removes no key: every identifier that was a key of the
store before is a key after, whether the submission is accepted or refused. It changes
the map at most at its own identifier: every other identifier is mapped as before. An
accepted submission writes its receipt under its identifier, so the keys after are the
keys before and this one. When the identifier of the submission was not a key before,
every earlier entry is mapped to the same receipt after. -/
theorem store_append_only (store : InMemoryStore) (method : String) (body : Option Receipt)
    (id : String) :
    (∀ k, store.receipts k ≠ none →
      (processReceiptHandler store method body id).1.receipts k ≠ none) ∧
    (∀ k, k ≠ id →
      (processReceiptHandler store method body id).1.receipts k = store.receipts k) ∧
    (∀ r k, (processReceiptHandler store "POST" (some r) id).1.receipts k
      = if k = id then some r else store.receipts k) ∧
    (store.receipts id = none → ∀ k r0, store.receipts k = some r0 →
      (processReceiptHandler store method body id).1.receipts k = some r0) := by
  have hne : ∀ k, k ≠ id →
      (processReceiptHandler store method body id).1.receipts k = store.receipts k := by
    intro k hk
    unfold processReceiptHandler
    split
    · rfl
    · cases body with
      | none => rfl
      | some r => simp [hk]
  refine ⟨?_, hne, ?_, ?_⟩
  · intro k hk
    by_cases hkid : k = id
    · unfold processReceiptHandler
      split
      · exact hk
      · cases body with
        | none => exact hk
        | some r => simp [hkid]
    · rw [hne k hkid]
      exact hk
  · intro r k
    simp [processReceiptHandler]
  · intro hfresh k r0 hk
    have hkid : k ≠ id := by
      intro e
      rw [e, hfresh] at hk
      exact Option.noConfusion hk
    rw [hne k hkid, hk]

/-- C18, amended, on a store with one receipt and a second submission under another
identifier: the first receipt is still there. -/
theorem store_append_only_witness :
    (processReceiptHandler emptyStore "POST" (some targetReceipt)
        "7fb1377b-b223-49d9-a31a-5a02701dd310").1.receipts
      "0a1b2c3d-0000-4000-8000-00000000beef" = none ∧
    (processReceiptHandler
        (processReceiptHandler emptyStore "POST" (some targetReceipt)
          "7fb1377b-b223-49d9-a31a-5a02701dd310").1
        "POST" (some testReceipt) "0a1b2c3d-0000-4000-8000-00000000beef").1.receipts
      "7fb1377b-b223-49d9-a31a-5a02701dd310" = some targetReceipt :=
  ⟨by simp [processReceiptHandler, emptyStore],
   (store_append_only
      (processReceiptHandler emptyStore "POST" (some targetReceipt)
        "7fb1377b-b223-49d9-a31a-5a02701dd310").1
      "POST" (some testReceipt) "0a1b2c3d-0000-4000-8000-00000000beef").2.2.2
      (by simp [processReceiptHandler, emptyStore])
      "7fb1377b-b223-49d9-a31a-5a02701dd310" targetReceipt
      (by simp [processReceiptHandler])⟩

/-- C20. When the total parses to a finite number, rule 2 awards its 50 points only if
rule 3 awards its 25 points: a float that equals its truncation is a multiple of 0.25.
The two rules together bring 0, 25 or 75 points, never 50. -/
theorem round_dollar_is_quarter (total : String) (a : Int)
    (h : (parseFloat total.data).1 = F64.fin a) :
    (rule2 total = 50 → rule3 total = 25) ∧
    (rule2 total + rule3 total = 0 ∨ rule2 total + rule3 total = 25
      ∨ rule2 total + rule3 total = 75) ∧
    rule2 total + rule3 total ≠ 50 := by
  have hp : parseFloat total.data = (F64.fin a, (parseFloat total.data).2) := by
    rw [← h]
  rw [rule2_fin total a _ hp, rule3_fin total a _ hp]
  have hq : ((2 ^ 1072 : Nat) : Int) ∣ (unit : Int) := Int.natCast_dvd_natCast.2 quarter_dvd_unit
  generalize ((2 ^ 1072 : Nat) : Int) = q at hq
  by_cases h2 : (unit : Int) ∣ a
  · have h3 : q ∣ a := dvd_trans hq h2
    rw [if_pos h2, if_pos h3]
    refine ⟨fun _ => rfl, ?_, ?_⟩ <;> norm_num
  · rw [if_neg h2]
    by_cases h3 : q ∣ a
    · rw [if_pos h3]
      refine ⟨fun e => absurd e (by norm_num), ?_, ?_⟩ <;> norm_num
    · rw [if_neg h3]
      refine ⟨fun e => absurd e (by norm_num), ?_, ?_⟩ <;> norm_num

/-- C20 on the totals `35.00`, `35.25` and `35.35`: 75, 25 and 0 points. -/
theorem round_dollar_is_quarter_witness :
    (parseFloat "35.00".data).1 = F64.fin ((35 * unit : Nat) : Int) ∧
    (rule2 "35.00" = 50 → rule3 "35.00" = 25) ∧
    rule2 "35.00" + rule3 "35.00" = 75 ∧ rule2 "35.25" + rule3 "35.25" = 25 ∧
    rule2 "35.35" + rule3 "35.35" = 0 :=
  ⟨by decide!,
   (round_dollar_is_quarter "35.00" ((35 * unit : Nat) : Int) (by decide!)).1,
   by decide!, by decide!, by decide!⟩

end ReceiptProcessor
